import Mathlib

/-!
UdpServer.cpp: receive pipeline, version sniff, checksum gate, send path.

A shallow embedding of `src/UdpServer.cpp`.

* Bytes, `boost::uint16_t` and `boost::uint32_t` values are natural numbers; the places
  where the C++ arithmetic is modular carry an explicit `% 2 ^ w`.
* `UdpBuffer`, the stream `IUdpBufferStream` and the archive `IUdpArchive` over it, the
  checksum functions of `protocol/CheckSum.h` and the `PEER_VERSION*` constants are declared
  outside `UdpServer.cpp`.  The buffer is modelled from the specification (section 4.1);
  the checksum functions, the constants, the byte order and the byte range that
  `UdpBuffer::data()` exposes are parameters (`Protocol`).
* Effects (handler calls, `delete`, `reset`, re-posting the receive) are recorded, in
  program order, in a trace of `Event`s.
-/

namespace protocol

/-! ## The datagram buffer -/

/-- Modelled from the spec: `UdpBuffer` (the DatagramBuffer of section 4.1), whose declaration
is not part of `UdpServer.cpp`.  `bytes` is the storage written by the transport, `filled_len`
the number of bytes committed, `read_cursor` the number of bytes consumed through the stream
or the archive (both work on the one cursor of the buffer they were constructed on). -/
structure UdpBuffer where
  bytes : List Nat
  read_cursor : Nat
  filled_len : Nat
deriving DecidableEq

namespace UdpBuffer

/-- Modelled from the spec: `commit(n)` sets `filled_len = n`. -/
def commit (b : UdpBuffer) (n : Nat) : UdpBuffer :=
  { b with filled_len := n }

/-- Modelled from the spec: `reset()` zeroes both cursors and keeps the storage. -/
def reset (b : UdpBuffer) : UdpBuffer :=
  { b with read_cursor := 0, filled_len := 0 }

/-- Modelled from the spec: `is.get()`, a read of one byte at the cursor, which advances the
cursor; `none` is the Underflow of section 4.1 (no committed byte is left). -/
def get (b : UdpBuffer) : Option (Nat × UdpBuffer) :=
  if b.read_cursor < b.filled_len then
    some (b.bytes.getD b.read_cursor 0, { b with read_cursor := b.read_cursor + 1 })
  else none

/-- Modelled from the spec: `is.unget()`, `unread(1)`: the cursor goes back by one byte;
`none` is the Underflow of section 4.1 (the cursor would go below zero). -/
def unget (b : UdpBuffer) : Option UdpBuffer :=
  if 0 < b.read_cursor then some { b with read_cursor := b.read_cursor - 1 } else none

/-- Modelled from the spec: `is.read(dst, n)`, `n` successive one-byte reads. -/
def read : Nat → UdpBuffer → Option (List Nat × UdpBuffer)
  | 0, b => some ([], b)
  | n + 1, b =>
    match b.get with
    | none => none
    | some (x, b1) =>
      match read n b1 with
      | none => none
      | some (xs, b2) => some (x :: xs, b2)

/-- Modelled from the spec: `is.ignore(n)`, a read of `n` bytes whose values are dropped. -/
def ignore (n : Nat) (b : UdpBuffer) : Option UdpBuffer :=
  match read n b with
  | none => none
  | some (_, b1) => some b1

/-- The loop `for (int i = 0; i < n; ++i) is.unget();`. -/
def unget_times : Nat → UdpBuffer → Option UdpBuffer
  | 0, b => some b
  | n + 1, b =>
    match b.unget with
    | none => none
    | some b1 => unget_times n b1

/-- Modelled from the spec: `remaining_view()`, the byte range from the read cursor to
`filled_len`: the bytes not yet consumed. -/
def remaining_view (b : UdpBuffer) : List Nat :=
  (b.bytes.take b.filled_len).drop b.read_cursor

/-- Modelled from the spec: `full_view()`, the byte range `[0, filled_len)`: all committed
bytes, consumed or not. -/
def full_view (b : UdpBuffer) : List Nat :=
  b.bytes.take b.filled_len

/-- Modelled from the spec: `data()`, the byte range of the buffer that the checksum functions
and `send_to` are given.  Section 4.1 has two views and section 9 leaves open which of them
the checksum sees, so the choice is a parameter: the unread range (`unread = true`; lines
185 and 188, which put the action byte back before `verify_check_sum` and read it out again
afterwards, presuppose this one) or the whole committed range (`unread = false`). -/
def data (b : UdpBuffer) (unread : Bool) : List Nat :=
  if unread then b.remaining_view else b.full_view

/-- Modelled from the spec: the offset in the storage at which `data()` begins, where
`UdpSendTo` stores the checksum. -/
def data_begin (b : UdpBuffer) (unread : Bool) : Nat :=
  if unread then b.read_cursor else 0

end UdpBuffer

/-! ## Parameters declared outside `UdpServer.cpp` -/

/-- The constants and functions that `UdpServer.cpp` uses and does not define: the protocol
versions, the two checksum functions of `protocol/CheckSum.h` (their results are taken
modulo `2 ^ 32` where they are used), the byte order of the host (`BOOST_BIG_ENDIAN`), the
decoding of a 16-bit field by `IUdpArchive`, and whether `UdpBuffer::data()` is the unread
range of the buffer or its whole committed range (see `UdpBuffer.data`). -/
structure Protocol where
  PEER_VERSION : Nat
  PEER_VERSION_V4 : Nat
  PEER_VERSION_V5 : Nat
  check_sum_old_fn : List Nat → Nat
  check_sum_new_fn : List Nat → Nat
  big_endian : Bool
  decode_uint16 : Nat → Nat → Nat
  data_is_unread : Bool

/-- The function `check_sum_old`, which returns a `boost::uint32_t`. -/
def check_sum_old (p : Protocol) (data : List Nat) : Nat :=
  p.check_sum_old_fn data % 2 ^ 32

/-- The function `check_sum_new`, which returns a `boost::uint32_t`. -/
def check_sum_new (p : Protocol) (data : List Nat) : Nat :=
  p.check_sum_new_fn data % 2 ^ 32

/-- The four bytes of a `boost::uint32_t` object in memory, in host byte order. -/
def store_uint32 (big_endian : Bool) (v : Nat) : List Nat :=
  if big_endian then
    [v / 16777216 % 256, v / 65536 % 256, v / 256 % 256, v % 256]
  else
    [v % 256, v / 256 % 256, v / 65536 % 256, v / 16777216 % 256]

/-- The `boost::uint32_t` whose object representation is the given bytes
(`is.read((boost::uint8_t *)&chk_sum, 4)`). -/
def load_uint32 (big_endian : Bool) (bs : List Nat) : Nat :=
  let b (i : Nat) : Nat := bs.getD i 0 % 256
  if big_endian then
    b 0 * 16777216 + b 1 * 65536 + b 2 * 256 + b 3
  else
    b 0 + b 1 * 256 + b 2 * 65536 + b 3 * 16777216

/-- The extraction `ia >> protocol_version` of a `boost::uint16_t`: two bytes are read at the
cursor and decoded. -/
def read_uint16 (p : Protocol) (b : UdpBuffer) : Option (Nat × UdpBuffer) :=
  match b.read 2 with
  | some ([x, y], b1) => some (p.decode_uint16 x y % 2 ^ 16, b1)
  | _ => none

/-- Modelled from the spec: `util::buffers::sub_buffers(buffers, 4)`, the byte range with its
leading `offset` bytes left out. -/
def sub_buffers (data : List Nat) (offset : Nat) : List Nat :=
  data.drop offset

/-! ## The server -/

/-- The members of `UdpServer` that the receive and send paths read: whether `handler_` is
set, the version floor, and the map `packet_handlers_` from action code to handler.  `call`
is what a handler does to the buffer it borrows. -/
structure UdpServer (H : Type) where
  handler_ : Bool
  minimal_protocol_version_ : Nat
  packet_handlers_ : Nat → Option H
  call : H → UdpBuffer → UdpBuffer

/-- The observable steps of `HandleUdpRecvFrom`, in program order.  The event of the sniff
carries the buffer and the arguments the sniff is called with and whether it accepted; the
event of `reset` carries the buffer as it is when `reset()` is called on it. -/
inductive Event (H : Type) where
  | delete_buffer : Event H
  | commit (bytes_transferred : Nat) : Event H
  | unknown_action (action : Nat) : Event H
  | get_protocol_version (buffer : UdpBuffer) (bytes_left action : Nat) (accepted : Bool) :
    Event H
  | verify_check_sum (data : List Nat) (chk_sum protocol_version : Nat) (ok : Bool) : Event H
  | handler (h : H) (buffer : UdpBuffer) : Event H
  | reset (buffer : UdpBuffer) : Event H
  | async_receive_from (buffer : UdpBuffer) : Event H
deriving DecidableEq

/-- `UdpServer::get_protocol_version` (lines 202-260).  The result is `none` when a stream
operation underflows; otherwise it is the buffer as the function leaves it together with
`some protocol_version` when the function returns `true` and `none` when it returns
`false`. -/
def get_protocol_version (p : Protocol) (buffer : UdpBuffer) (bytes_left action : Nat) :
    Option (UdpBuffer × Option Nat) :=
  if 0x50 ≤ action ∧ action < 0x60 then
    if bytes_left < 6 then some (buffer, none)
    else
      match buffer.ignore 4 with
      | none => none
      | some b1 =>
        match read_uint16 p b1 with
        | none => none
        | some (protocol_version, b2) =>
          match b2.unget_times 6 with
          | none => none
          | some b3 => some (b3, some protocol_version)
  else if 0xA0 ≤ action ∧ action < 0xB0 then
    some (buffer, some p.PEER_VERSION_V4)
  else
    if bytes_left < 5 then some (buffer, none)
    else
      match buffer.ignore 4 with
      | none => none
      | some b1 =>
        match b1.get with
        | none => none
        | some (is_request, b2) =>
          if is_request ≠ 0 then
            if bytes_left < 7 then some (b2, none)
            else
              match read_uint16 p b2 with
              | none => none
              | some (protocol_version, b3) =>
                match b3.unget_times 2 with
                | none => none
                | some b4 =>
                  match b4.unget_times 5 with
                  | none => none
                  | some b5 => some (b5, some protocol_version)
          else
            match b2.unget_times 5 with
            | none => none
            | some b3 => some (b3, some p.PEER_VERSION)

/-- `UdpServer::verify_check_sum` (lines 262-280). -/
def verify_check_sum {H : Type} (p : Protocol) (s : UdpServer H) (buffer : UdpBuffer)
    (chk_sum protocol_version : Nat) : Bool :=
  if protocol_version ≥ s.minimal_protocol_version_ then
    if protocol_version ≥ p.PEER_VERSION_V5 then
      check_sum_new p (buffer.data p.data_is_unread) == chk_sum
    else
      check_sum_old p (buffer.data p.data_is_unread) == chk_sum
  else
    false

/-- `UdpServer::UdpSendTo` (lines 139-159): the checksum of `send_buffer.data()` without its
leading four bytes is stored, in host byte order, over the four bytes at which
`send_buffer.data()` begins; the result is the buffer after the store and the datagram
handed to `send_to`. -/
def UdpSendTo (p : Protocol) (send_buffer : UdpBuffer) (dest_protocol_version : Nat) :
    UdpBuffer × List Nat :=
  let chk_sum :=
    if dest_protocol_version < p.PEER_VERSION_V5 then
      check_sum_old p (sub_buffers (send_buffer.data p.data_is_unread) 4)
    else
      check_sum_new p (sub_buffers (send_buffer.data p.data_is_unread) 4)
  let stored : UdpBuffer :=
    { send_buffer with
      bytes := send_buffer.bytes.take (send_buffer.data_begin p.data_is_unread)
        ++ store_uint32 p.big_endian chk_sum
        ++ send_buffer.bytes.drop (send_buffer.data_begin p.data_is_unread + 4) }
  (stored, stored.data p.data_is_unread)

/-- `UdpServer::UdpRecvFrom` (lines 126-137): one asynchronous receive is posted on the
buffer, with `HandleUdpRecvFrom` as its completion handler. -/
def UdpRecvFrom {H : Type} (recv_buffer : UdpBuffer) : List (Event H) :=
  [Event.async_receive_from recv_buffer]

/-- The tail of `HandleUdpRecvFrom` (lines 198-199): `recv_buffer.reset()` and
`UdpRecvFrom(recv_buffer)`, which posts one asynchronous receive on the buffer. -/
def recycle {H : Type} (recv_buffer : UdpBuffer) : List (Event H) :=
  Event.reset recv_buffer :: UdpRecvFrom recv_buffer.reset

/-- `UdpServer::HandleUdpRecvFrom` (lines 161-200): the trace of the completion handler for
the error flag, the transferred byte count (a `boost::uint32_t`) and the buffer the transport
has written to.  The result is `none` when a stream operation underflows. -/
def HandleUdpRecvFrom {H : Type} (p : Protocol) (s : UdpServer H) (error : Bool)
    (bytes_transferred : Nat) (recv_buffer : UdpBuffer) : Option (List (Event H)) :=
  if !s.handler_ then
    some [Event.delete_buffer]
  else if !error ∧ bytes_transferred > 4 + 1 then
    let b0 := recv_buffer.commit bytes_transferred
    match b0.read 4 with
    | none => none
    | some (chk_bytes, b1) =>
      let chk_sum := load_uint32 p.big_endian chk_bytes
      match b1.get with
      | none => none
      | some (action, b2) =>
        match s.packet_handlers_ action with
        | none =>
          some (Event.commit bytes_transferred :: Event.unknown_action action :: recycle b2)
        | some h =>
          let bytes_left := (bytes_transferred + 2 ^ 32 - 5) % 2 ^ 32
          match get_protocol_version p b2 bytes_left action with
          | none => none
          | some (b3, none) =>
            some (Event.commit bytes_transferred
              :: Event.get_protocol_version b2 bytes_left action false :: recycle b3)
          | some (b3, some protocol_version) =>
            match b3.unget with
            | none => none
            | some b4 =>
              if verify_check_sum p s b4 chk_sum protocol_version then
                match b4.get with
                | none => none
                | some (_, b5) =>
                  some (Event.commit bytes_transferred
                    :: Event.get_protocol_version b2 bytes_left action true
                    :: Event.verify_check_sum (b4.data p.data_is_unread) chk_sum
                        protocol_version true
                    :: Event.handler h b5 :: recycle (s.call h b5))
              else
                some (Event.commit bytes_transferred
                  :: Event.get_protocol_version b2 bytes_left action true
                  :: Event.verify_check_sum (b4.data p.data_is_unread) chk_sum
                      protocol_version false
                  :: recycle b4)
  else
    some (recycle recv_buffer)

/-- The handlers a trace invokes, in order. -/
def invoked {H : Type} : List (Event H) → List H
  | [] => []
  | Event.handler h _ :: es => h :: invoked es
  | _ :: es => invoked es

/-- The buffers with which a trace invokes handlers, in order. -/
def handler_buffers {H : Type} : List (Event H) → List UdpBuffer
  | [] => []
  | Event.handler _ b :: es => b :: handler_buffers es
  | _ :: es => handler_buffers es

/-- The number of calls of `verify_check_sum` in a trace. -/
def verify_calls {H : Type} : List (Event H) → Nat
  | [] => 0
  | Event.verify_check_sum _ _ _ _ :: es => verify_calls es + 1
  | _ :: es => verify_calls es

/-- The value that line 175 reads into `chk_sum`: the first four bytes of the received
datagram as a `boost::uint32_t` in host byte order. -/
def leading_chk_sum (p : Protocol) (bytes : List Nat) : Nat :=
  load_uint32 p.big_endian [bytes.getD 0 0, bytes.getD 1 0, bytes.getD 2 0, bytes.getD 3 0]

/-- The checksum that `UdpSendTo` computes for the datagram `d` and the destination version
`v`: the variant for `v` over the bytes of `d` from offset 4 on. -/
def send_chk_sum (p : Protocol) (d : List Nat) (v : Nat) : Nat :=
  if v < p.PEER_VERSION_V5 then check_sum_old p (d.drop 4) else check_sum_new p (d.drop 4)

/-! ## Posting receives, the completion stream and shutdown -/

/-- The outcome of one `new UdpBuffer` in `Recv` under the two tests that follow it: the
pointer is null (line 111), the buffer tests false under `!*recv_buffer` (line 115), or the
buffer is usable. -/
inductive Allocation where
  | null : Allocation
  | invalid (buffer : UdpBuffer) : Allocation
  | valid (buffer : UdpBuffer) : Allocation
deriving DecidableEq

/-- The loop of `UdpServer::Recv` (lines 109-122) with `remaining = count - i` iterations to
go: `alloc i` is the outcome of the allocation in the iteration with index `i`.  The result is
the final value of `i` and the trace of the loop. -/
def Recv_loop {H : Type} (alloc : Nat → Allocation) : Nat → Nat → Nat × List (Event H)
  | 0, i => (i, [])
  | remaining + 1, i =>
    match alloc i with
    | Allocation.null => (i, [])
    | Allocation.invalid _ => (i, [Event.delete_buffer])
    | Allocation.valid recv_buffer =>
      let r := Recv_loop alloc remaining (i + 1)
      (r.1, UdpRecvFrom recv_buffer ++ r.2)

/-- `UdpServer::Recv` (lines 105-124): the value returned and the trace. -/
def Recv {H : Type} (alloc : Nat → Allocation) (count : Nat) : Nat × List (Event H) :=
  Recv_loop alloc count 0

/-- `UdpServer::Close` (lines 282-287): the socket is closed and `handler_` becomes null. -/
def Close {H : Type} (s : UdpServer H) : UdpServer H :=
  { s with handler_ := false }

/-- The buffers on which a trace posts a receive, in order. -/
def posted_buffers {H : Type} : List (Event H) → List UdpBuffer
  | [] => []
  | Event.async_receive_from b :: es => b :: posted_buffers es
  | _ :: es => posted_buffers es

/-- The number of buffers a trace deletes. -/
def deleted {H : Type} : List (Event H) → Nat
  | [] => 0
  | Event.delete_buffer :: es => deleted es + 1
  | _ :: es => deleted es

/-- Whether no handler is invoked twice in a trace without a `reset` in between; `pending`
says that a handler has been invoked since the last `reset`. -/
def no_double_dispatch {H : Type} : Bool → List (Event H) → Bool
  | _, [] => true
  | pending, Event.handler _ _ :: es => !pending && no_double_dispatch true es
  | _, Event.reset _ :: es => no_double_dispatch false es
  | pending, _ :: es => no_double_dispatch pending es

/-- One completion of an outstanding receive: the position in the pool of the buffer whose
receive completes, the error flag, the transferred byte count and the storage of the buffer
as the transport leaves it. -/
structure Completion where
  index : Nat
  error : Bool
  bytes_transferred : Nat
  bytes : List Nat
deriving DecidableEq

/-- Modelled from the spec: the single event stream of section 5.  `pool` holds the buffers
with an outstanding receive; each completion takes its buffer out of the pool, runs
`HandleUdpRecvFrom` on it, and the buffers the handler posts go back into the pool.  The
result is the final pool and the concatenated trace; it is `none` when a completion names no
outstanding receive or the handler underflows. -/
def run_completions {H : Type} (p : Protocol) (s : UdpServer H) :
    List UdpBuffer → List Completion → Option (List UdpBuffer × List (Event H))
  | pool, [] => some (pool, [])
  | pool, c :: cs =>
    match pool[c.index]? with
    | none => none
    | some b =>
      match HandleUdpRecvFrom p s c.error c.bytes_transferred { b with bytes := c.bytes } with
      | none => none
      | some trace =>
        match run_completions p s (pool.eraseIdx c.index ++ posted_buffers trace) cs with
        | none => none
        | some (pool1, rest) => some (pool1, trace ++ rest)

/-! ## Concrete parameters for evaluation -/

/-- A little-endian host with versions `PEER_VERSION_V4 = 4 < PEER_VERSION_V5 = 5 <
PEER_VERSION = 6`, a byte-sum as the old checksum and a weighted byte-sum as the new one;
`data()` is the unread range. -/
def sample_protocol : Protocol where
  PEER_VERSION := 6
  PEER_VERSION_V4 := 4
  PEER_VERSION_V5 := 5
  check_sum_old_fn := fun d => d.sum
  check_sum_new_fn := fun d => 3 * d.sum + 1
  big_endian := false
  decode_uint16 := fun x y => x + 256 * y
  data_is_unread := true

/-- A server with its handler set, floor `0`, and handlers registered for the actions
`0x10`, `0x55` and `0xA0`; a handler is named by its action and reads four bytes. -/
def sample_server : UdpServer Nat where
  handler_ := true
  minimal_protocol_version_ := 0
  packet_handlers_ := fun a => if a = 0x10 ∨ a = 0x55 ∨ a = 0xA0 then some a else none
  call := fun _ b => { b with read_cursor := b.read_cursor + 4 }


/-- The sample server with its version floor raised to 5, above `PEER_VERSION_V4`. -/
def strict_server : UdpServer Nat :=
  { sample_server with minimal_protocol_version_ := 5 }

/-! ## Cursor arithmetic of the buffer operations -/

theorem UdpBuffer.get_of_lt (b : UdpBuffer) (h : b.read_cursor < b.filled_len) :
    b.get = some (b.bytes.getD b.read_cursor 0, { b with read_cursor := b.read_cursor + 1 }) := by
  simp [UdpBuffer.get, h]

theorem UdpBuffer.unget_of_pos (b : UdpBuffer) (h : 0 < b.read_cursor) :
    b.unget = some { b with read_cursor := b.read_cursor - 1 } := by
  simp [UdpBuffer.unget, h]

theorem UdpBuffer.read_of_le (n : Nat) (b : UdpBuffer) (h : b.read_cursor + n ≤ b.filled_len) :
    b.read n = some ((List.range n).map (fun i => b.bytes.getD (b.read_cursor + i) 0),
      { b with read_cursor := b.read_cursor + n }) := by
  induction n generalizing b with
  | zero => simp [UdpBuffer.read]
  | succ n ih =>
    have hlt : b.read_cursor < b.filled_len := by omega
    have hrest := ih { b with read_cursor := b.read_cursor + 1 } (by simp; omega)
    simp only [UdpBuffer.read, UdpBuffer.get_of_lt b hlt, hrest]
    simp [List.range_succ_eq_map, Nat.add_assoc, Nat.add_comm 1, Function.comp_def]

theorem UdpBuffer.ignore_of_le (n : Nat) (b : UdpBuffer) (h : b.read_cursor + n ≤ b.filled_len) :
    b.ignore n = some { b with read_cursor := b.read_cursor + n } := by
  simp [UdpBuffer.ignore, UdpBuffer.read_of_le n b h]

theorem UdpBuffer.unget_times_of_le (n : Nat) (b : UdpBuffer) (h : n ≤ b.read_cursor) :
    b.unget_times n = some { b with read_cursor := b.read_cursor - n } := by
  induction n generalizing b with
  | zero => simp [UdpBuffer.unget_times]
  | succ n ih =>
    have hpos : 0 < b.read_cursor := by omega
    have hrest := ih { b with read_cursor := b.read_cursor - 1 } (by simp; omega)
    simp only [UdpBuffer.unget_times, UdpBuffer.unget_of_pos b hpos, hrest]
    simp [Nat.sub_sub, Nat.add_comm]

theorem read_uint16_of_le (p : Protocol) (b : UdpBuffer) (h : b.read_cursor + 2 ≤ b.filled_len) :
    read_uint16 p b = some
      (p.decode_uint16 (b.bytes.getD b.read_cursor 0) (b.bytes.getD (b.read_cursor + 1) 0) % 2 ^ 16,
        { b with read_cursor := b.read_cursor + 2 }) := by
  simp [read_uint16, UdpBuffer.read_of_le 2 b h, List.range_succ]


/-- Closed form of the sniff on a buffer that holds at least `bytes_left` unread bytes. -/
theorem get_protocol_version_eq (p : Protocol) (b : UdpBuffer) (bytes_left action : Nat)
    (h : b.read_cursor + bytes_left ≤ b.filled_len) :
    get_protocol_version p b bytes_left action =
      if 0x50 ≤ action ∧ action < 0x60 then
        if bytes_left < 6 then some (b, none)
        else some (b, some (p.decode_uint16 (b.bytes.getD (b.read_cursor + 4) 0)
          (b.bytes.getD (b.read_cursor + 5) 0) % 2 ^ 16))
      else if 0xA0 ≤ action ∧ action < 0xB0 then some (b, some p.PEER_VERSION_V4)
      else if bytes_left < 5 then some (b, none)
      else if b.bytes.getD (b.read_cursor + 4) 0 ≠ 0 then
        if bytes_left < 7 then some ({ b with read_cursor := b.read_cursor + 5 }, none)
        else some (b, some (p.decode_uint16 (b.bytes.getD (b.read_cursor + 5) 0)
          (b.bytes.getD (b.read_cursor + 6) 0) % 2 ^ 16))
      else some (b, some p.PEER_VERSION) := by
  unfold get_protocol_version
  by_cases hpeer : 0x50 ≤ action ∧ action < 0x60
  · rw [if_pos hpeer, if_pos hpeer]
    by_cases h6 : bytes_left < 6
    · rw [if_pos h6, if_pos h6]
    · rw [if_neg h6, if_neg h6, UdpBuffer.ignore_of_le 4 b (by omega)]
      simp only []
      rw [read_uint16_of_le p _ (by simp; omega)]
      simp only []
      rw [UdpBuffer.unget_times_of_le 6 _ (by simp)]
      simp [Nat.add_assoc]
  · rw [if_neg hpeer, if_neg hpeer]
    by_cases hnotify : 0xA0 ≤ action ∧ action < 0xB0
    · rw [if_pos hnotify, if_pos hnotify]
    · rw [if_neg hnotify, if_neg hnotify]
      by_cases h5 : bytes_left < 5
      · rw [if_pos h5, if_pos h5]
      · rw [if_neg h5, if_neg h5, UdpBuffer.ignore_of_le 4 b (by omega)]
        simp only []
        rw [UdpBuffer.get_of_lt _ (by simp; omega)]
        simp only []
        by_cases hreq : b.bytes.getD (b.read_cursor + 4) 0 ≠ 0
        · rw [if_pos hreq, if_pos hreq]
          by_cases h7 : bytes_left < 7
          · rw [if_pos h7, if_pos h7]
          · rw [if_neg h7, if_neg h7, read_uint16_of_le p _ (by simp; omega)]
            simp only []
            rw [UdpBuffer.unget_times_of_le 2 _ (by simp)]
            simp only []
            rw [UdpBuffer.unget_times_of_le 5 _ (by simp)]
            simp [Nat.add_assoc]
        · rw [if_neg hreq, if_neg hreq, UdpBuffer.unget_times_of_le 5 _ (by simp)]
          simp


/-- On a buffer that holds at least `bytes_left` unread bytes the sniff returns, and when it
accepts it leaves the buffer as it found it. -/
theorem get_protocol_version_total (p : Protocol) (b : UdpBuffer) (bytes_left action : Nat)
    (h : b.read_cursor + bytes_left ≤ b.filled_len) :
    (∃ b1, get_protocol_version p b bytes_left action = some (b1, none)) ∨
      (∃ v, get_protocol_version p b bytes_left action = some (b, some v)) := by
  rw [get_protocol_version_eq p b bytes_left action h]
  split_ifs <;> simp

/-- Closed form of the completion handler on a posted buffer for an error-free completion
of more than five bytes while `handler_` is set. -/
theorem HandleUdpRecvFrom_processed {H : Type} (p : Protocol) (s : UdpServer H)
    (bytes : List Nat) (n : Nat) (hset : s.handler_ = true) (hlen : 5 < n) (h32 : n < 2 ^ 32) :
    HandleUdpRecvFrom p s false n ⟨bytes, 0, 0⟩ =
      match s.packet_handlers_ (bytes.getD 4 0) with
      | none =>
        some (Event.commit n :: Event.unknown_action (bytes.getD 4 0) :: recycle ⟨bytes, 5, n⟩)
      | some h =>
        match get_protocol_version p ⟨bytes, 5, n⟩ (n - 5) (bytes.getD 4 0) with
        | none => none
        | some (b3, none) =>
          some (Event.commit n
            :: Event.get_protocol_version ⟨bytes, 5, n⟩ (n - 5) (bytes.getD 4 0) false :: recycle b3)
        | some (_, some v) =>
          if verify_check_sum p s ⟨bytes, 4, n⟩ (leading_chk_sum p bytes) v then
            some (Event.commit n
              :: Event.get_protocol_version ⟨bytes, 5, n⟩ (n - 5) (bytes.getD 4 0) true
              :: Event.verify_check_sum (UdpBuffer.data ⟨bytes, 4, n⟩ p.data_is_unread)
                  (leading_chk_sum p bytes) v true
              :: Event.handler h ⟨bytes, 5, n⟩ :: recycle (s.call h ⟨bytes, 5, n⟩))
          else
            some (Event.commit n
              :: Event.get_protocol_version ⟨bytes, 5, n⟩ (n - 5) (bytes.getD 4 0) true
              :: Event.verify_check_sum (UdpBuffer.data ⟨bytes, 4, n⟩ p.data_is_unread)
                  (leading_chk_sum p bytes) v false
              :: recycle ⟨bytes, 4, n⟩) := by
  have hwrap : (n + 2 ^ 32 - 5) % 2 ^ 32 = n - 5 := by omega
  have hread : (UdpBuffer.commit ⟨bytes, 0, 0⟩ n).read 4 = some
      ([bytes.getD 0 0, bytes.getD 1 0, bytes.getD 2 0, bytes.getD 3 0], ⟨bytes, 4, n⟩) := by
    rw [UdpBuffer.read_of_le 4 _ (by simp [UdpBuffer.commit]; omega)]
    simp [UdpBuffer.commit, List.range_succ]
  have hget : UdpBuffer.get ⟨bytes, 4, n⟩ = some (bytes.getD 4 0, ⟨bytes, 5, n⟩) := by
    rw [UdpBuffer.get_of_lt _ (by simp; omega)]
  unfold HandleUdpRecvFrom leading_chk_sum
  simp only [hset, hread, hget, hwrap]
  have hguard : (!false) = true ∧ n > 4 + 1 := ⟨rfl, by omega⟩
  simp only [Bool.not_true, Bool.false_eq_true, if_false, if_pos hguard]
  cases hlook : s.packet_handlers_ (bytes.getD 4 0) with
  | none => rfl
  | some h =>
    simp only []
    rcases get_protocol_version_total p ⟨bytes, 5, n⟩ (n - 5) (bytes.getD 4 0)
      (by simp; omega) with ⟨b1, hrej⟩ | ⟨v, hacc⟩
    · rw [hrej]
    · rw [hacc]
      simp only []
      rw [UdpBuffer.unget_of_pos _ (by simp)]
      simp only [Nat.add_one_sub_one, hget]

/-- Closed form of the completion handler when the completion is not processed: the handler
is set and the completion carries an error or at most five bytes. -/
theorem HandleUdpRecvFrom_skipped {H : Type} (p : Protocol) (s : UdpServer H) (error : Bool)
    (n : Nat) (b : UdpBuffer) (hset : s.handler_ = true) (hskip : error = true ∨ n ≤ 5) :
    HandleUdpRecvFrom p s error n b = some (recycle b) := by
  unfold HandleUdpRecvFrom
  have hguard : ¬((!error) = true ∧ n > 4 + 1) := by
    rcases hskip with he | hn
    · simp [he]
    · omega
  simp only [hset, Bool.not_true, Bool.false_eq_true, if_false]
  rw [if_neg hguard]

/-- With the read cursor at 0 both readings of `data()` give the committed bytes. -/
theorem UdpBuffer.data_at_start (bytes : List Nat) (n : Nat) (unread : Bool) :
    UdpBuffer.data ⟨bytes, 0, n⟩ unread = bytes.take n := by
  cases unread <;> simp [UdpBuffer.data, UdpBuffer.remaining_view, UdpBuffer.full_view]

/-- With the read cursor at 0 both readings of `data()` begin at offset 0. -/
theorem UdpBuffer.data_begin_at_start (bytes : List Nat) (n : Nat) (unread : Bool) :
    UdpBuffer.data_begin ⟨bytes, 0, n⟩ unread = 0 := by
  cases unread <;> simp [UdpBuffer.data_begin]

/-- The datagram that `UdpSendTo` transmits for a buffer holding the datagram `d` of at least
four bytes: the stored checksum followed by the bytes of `d` from offset 4 on. -/
theorem UdpSendTo_datagram (p : Protocol) (d : List Nat) (v : Nat) (hlen : 4 ≤ d.length) :
    (UdpSendTo p ⟨d, 0, d.length⟩ v).2
      = store_uint32 p.big_endian (send_chk_sum p d v) ++ d.drop 4 := by
  have hstore : (store_uint32 p.big_endian (send_chk_sum p d v)).length = 4 := by
    unfold store_uint32
    split_ifs <;> rfl
  have hl : (store_uint32 p.big_endian (send_chk_sum p d v) ++ d.drop 4).length ≤ d.length := by
    simp [hstore]; omega
  simp only [UdpSendTo, UdpBuffer.data_at_start, UdpBuffer.data_begin_at_start, sub_buffers,
    List.take_length, List.take_zero, List.nil_append, Nat.zero_add]
  exact List.take_of_length_le hl

/-! ## The claims -/

/-- C1: for a processed completion (handler set, no error, more than five bytes) the
completion handler returns a trace, and that trace invokes a packet handler exactly when the
action byte has an entry in `packet_handlers_`, `get_protocol_version` accepts and
`verify_check_sum` returns true; it then invokes the handler registered for that action,
once.  When the action is unknown, the sniff rejects or the gate fails, no handler is
invoked. -/
theorem dispatch_exactly_when_registered_sniffed_verified {H : Type} (p : Protocol)
    (s : UdpServer H) (bytes : List Nat) (n : Nat)
    (hset : s.handler_ = true) (hlen : 5 < n) (h32 : n < 2 ^ 32) :
    ∃ trace, HandleUdpRecvFrom p s false n ⟨bytes, 0, 0⟩ = some trace ∧
      ((∃ h v, s.packet_handlers_ (bytes.getD 4 0) = some h ∧
          get_protocol_version p ⟨bytes, 5, n⟩ (n - 5) (bytes.getD 4 0)
            = some (⟨bytes, 5, n⟩, some v) ∧
          verify_check_sum p s ⟨bytes, 4, n⟩ (leading_chk_sum p bytes) v = true ∧
          invoked trace = [h]) ∨
       ((s.packet_handlers_ (bytes.getD 4 0) = none ∨
          (∃ b1, get_protocol_version p ⟨bytes, 5, n⟩ (n - 5) (bytes.getD 4 0)
            = some (b1, none)) ∨
          (∃ v, get_protocol_version p ⟨bytes, 5, n⟩ (n - 5) (bytes.getD 4 0)
              = some (⟨bytes, 5, n⟩, some v) ∧
            verify_check_sum p s ⟨bytes, 4, n⟩ (leading_chk_sum p bytes) v = false)) ∧
        invoked trace = [])) := by
  rw [HandleUdpRecvFrom_processed p s bytes n hset hlen h32]
  cases hlook : s.packet_handlers_ (bytes.getD 4 0) with
  | none => exact ⟨_, rfl, Or.inr ⟨Or.inl rfl, rfl⟩⟩
  | some h =>
    rcases get_protocol_version_total p ⟨bytes, 5, n⟩ (n - 5) (bytes.getD 4 0)
      (by simp; omega) with ⟨b1, hrej⟩ | ⟨v, hacc⟩
    · rw [hrej]
      exact ⟨_, rfl, Or.inr ⟨Or.inr (Or.inl ⟨b1, rfl⟩), rfl⟩⟩
    · rw [hacc]
      simp only []
      by_cases hver : verify_check_sum p s ⟨bytes, 4, n⟩ (leading_chk_sum p bytes) v = true
      · rw [if_pos hver]
        exact ⟨_, rfl, Or.inl ⟨h, v, rfl, rfl, hver, by simp [invoked, recycle, UdpRecvFrom]⟩⟩
      · rw [if_neg hver]
        exact ⟨_, rfl, Or.inr ⟨Or.inr (Or.inr ⟨v, rfl, by simpa using hver⟩),
          by simp [invoked, recycle, UdpRecvFrom]⟩⟩

/-- C2 (the code at the failing input): on the ten-byte datagram with action `0x10`, five
bytes after the action and a non-zero is-request flag, `get_protocol_version` returns
`false` with the read cursor at 10, five bytes past the position 5 it had on entry: the
return at line 241 comes after `ignore(4)` and `get()` and before any `unget()`.  The
completion handler of the sample server, where `0x10` is registered, reaches the sniff with
exactly these arguments. -/
theorem sniff_late_reject_moves_cursor (p : Protocol) :
    get_protocol_version p ⟨[0, 0, 0, 0, 0x10, 0, 0, 0, 0, 1], 5, 10⟩ 5 0x10
      = some (⟨[0, 0, 0, 0, 0x10, 0, 0, 0, 0, 1], 10, 10⟩, none) ∧
    HandleUdpRecvFrom p sample_server false 10 ⟨[0, 0, 0, 0, 0x10, 0, 0, 0, 0, 1], 0, 0⟩
      = some [Event.commit 10,
          Event.get_protocol_version ⟨[0, 0, 0, 0, 0x10, 0, 0, 0, 0, 1], 5, 10⟩ 5 0x10 false,
          Event.reset ⟨[0, 0, 0, 0, 0x10, 0, 0, 0, 0, 1], 10, 10⟩,
          Event.async_receive_from ⟨[0, 0, 0, 0, 0x10, 0, 0, 0, 0, 1], 0, 0⟩] := by
  constructor
  · rfl
  · rfl

/-- C1, at the six-byte notify datagram `A0 00 00 00 A0 00` on the sample server. -/
theorem dispatch_exactly_when_registered_sniffed_verified_witness :
    sample_server.handler_ = true ∧ 5 < 6 ∧ 6 < 2 ^ 32 ∧
    ∃ trace, HandleUdpRecvFrom sample_protocol sample_server false 6
        ⟨[0xA0, 0, 0, 0, 0xA0, 0], 0, 0⟩ = some trace ∧
      ((∃ h v, sample_server.packet_handlers_ ([0xA0, 0, 0, 0, 0xA0, 0].getD 4 0) = some h ∧
          get_protocol_version sample_protocol ⟨[0xA0, 0, 0, 0, 0xA0, 0], 5, 6⟩ (6 - 5)
              ([0xA0, 0, 0, 0, 0xA0, 0].getD 4 0)
            = some (⟨[0xA0, 0, 0, 0, 0xA0, 0], 5, 6⟩, some v) ∧
          verify_check_sum sample_protocol sample_server ⟨[0xA0, 0, 0, 0, 0xA0, 0], 4, 6⟩
            (leading_chk_sum sample_protocol [0xA0, 0, 0, 0, 0xA0, 0]) v = true ∧
          invoked trace = [h]) ∨
       ((sample_server.packet_handlers_ ([0xA0, 0, 0, 0, 0xA0, 0].getD 4 0) = none ∨
          (∃ b1, get_protocol_version sample_protocol ⟨[0xA0, 0, 0, 0, 0xA0, 0], 5, 6⟩ (6 - 5)
              ([0xA0, 0, 0, 0, 0xA0, 0].getD 4 0)
            = some (b1, none)) ∨
          (∃ v, get_protocol_version sample_protocol ⟨[0xA0, 0, 0, 0, 0xA0, 0], 5, 6⟩ (6 - 5)
                ([0xA0, 0, 0, 0, 0xA0, 0].getD 4 0)
              = some (⟨[0xA0, 0, 0, 0, 0xA0, 0], 5, 6⟩, some v) ∧
            verify_check_sum sample_protocol sample_server ⟨[0xA0, 0, 0, 0, 0xA0, 0], 4, 6⟩
              (leading_chk_sum sample_protocol [0xA0, 0, 0, 0, 0xA0, 0]) v = false)) ∧
        invoked trace = [])) :=
  ⟨rfl, by decide, by norm_num,
    dispatch_exactly_when_registered_sniffed_verified sample_protocol sample_server
      [0xA0, 0, 0, 0, 0xA0, 0] 6 rfl (by decide) (by norm_num)⟩

/-- C5: version-floor gate.  For a protocol version below `minimal_protocol_version_`,
`verify_check_sum` returns false for every buffer and every `chk_sum`, whatever the two
checksum functions compute; and a processed completion whose sniffed version is below the
floor invokes no handler. -/
theorem below_floor_rejected {H : Type} (p : Protocol) (s : UdpServer H) (buffer : UdpBuffer)
    (chk_sum protocol_version : Nat) (bytes : List Nat) (n : Nat)
    (hbelow : protocol_version < s.minimal_protocol_version_) :
    verify_check_sum p s buffer chk_sum protocol_version = false ∧
    (s.handler_ = true → 5 < n → n < 2 ^ 32 →
      get_protocol_version p ⟨bytes, 5, n⟩ (n - 5) (bytes.getD 4 0)
        = some (⟨bytes, 5, n⟩, some protocol_version) →
      ∃ trace, HandleUdpRecvFrom p s false n ⟨bytes, 0, 0⟩ = some trace ∧
        invoked trace = []) := by
  have hgate : ∀ b c, verify_check_sum p s b c protocol_version = false := by
    intro b c
    unfold verify_check_sum
    rw [if_neg (by omega)]
  refine ⟨hgate _ _, fun hset hlen h32 hacc => ?_⟩
  rw [HandleUdpRecvFrom_processed p s bytes n hset hlen h32]
  cases hlook : s.packet_handlers_ (bytes.getD 4 0) with
  | none => exact ⟨_, rfl, rfl⟩
  | some h =>
    simp only []
    rw [hacc]
    simp only [hgate]
    exact ⟨_, rfl, by simp [invoked, recycle, UdpRecvFrom]⟩

/-- C5, on the server whose floor is 5: the six-byte notify datagram
`A0 00 00 00 A0 00`, whose leading bytes are its legacy checksum, sniffs as version 4. -/
theorem below_floor_rejected_witness :
    (4 : Nat) < strict_server.minimal_protocol_version_ ∧
    check_sum_old sample_protocol
      (UdpBuffer.data ⟨[0xA0, 0, 0, 0, 0xA0, 0], 4, 6⟩ sample_protocol.data_is_unread) = 0xA0 ∧
    verify_check_sum sample_protocol strict_server
      ⟨[0xA0, 0, 0, 0, 0xA0, 0], 4, 6⟩ 0xA0 4 = false ∧
    ∃ trace, HandleUdpRecvFrom sample_protocol strict_server false 6
        ⟨[0xA0, 0, 0, 0, 0xA0, 0], 0, 0⟩ = some trace ∧ invoked trace = [] :=
  ⟨by decide, by decide,
    (below_floor_rejected sample_protocol strict_server
      ⟨[0xA0, 0, 0, 0, 0xA0, 0], 4, 6⟩ 0xA0 4 [0xA0, 0, 0, 0, 0xA0, 0] 6 (by decide)).1,
    (below_floor_rejected sample_protocol strict_server
      ⟨[0xA0, 0, 0, 0, 0xA0, 0], 4, 6⟩ 0xA0 4 [0xA0, 0, 0, 0, 0xA0, 0] 6 (by decide)).2
      rfl (by decide) (by norm_num) (by decide)⟩

/-- C6: checksum variant selection.  For a protocol version at or above the floor,
`verify_check_sum` is the comparison of `chk_sum` with `check_sum_new` of the buffer data
when the version is at least `PEER_VERSION_V5`, and with `check_sum_old` of the buffer data
when it is below; replacing the function of the other variant does not change the result. -/
theorem verify_selects_variant {H : Type} (p : Protocol) (s : UdpServer H) (buffer : UdpBuffer)
    (chk_sum protocol_version : Nat) (f : List Nat → Nat)
    (hfloor : protocol_version ≥ s.minimal_protocol_version_) :
    (protocol_version ≥ p.PEER_VERSION_V5 →
      verify_check_sum p s buffer chk_sum protocol_version
        = (check_sum_new p (buffer.data p.data_is_unread) == chk_sum) ∧
      verify_check_sum { p with check_sum_old_fn := f } s buffer chk_sum protocol_version
        = verify_check_sum p s buffer chk_sum protocol_version) ∧
    (protocol_version < p.PEER_VERSION_V5 →
      verify_check_sum p s buffer chk_sum protocol_version
        = (check_sum_old p (buffer.data p.data_is_unread) == chk_sum) ∧
      verify_check_sum { p with check_sum_new_fn := f } s buffer chk_sum protocol_version
        = verify_check_sum p s buffer chk_sum protocol_version) := by
  refine ⟨fun h5 => ?_, fun h5 => ?_⟩
  · unfold verify_check_sum
    rw [if_pos hfloor, if_pos h5, if_pos hfloor, if_pos h5]
    exact ⟨rfl, rfl⟩
  · have h5n : ¬ protocol_version ≥ p.PEER_VERSION_V5 := by omega
    unfold verify_check_sum
    rw [if_pos hfloor, if_neg h5n, if_pos hfloor, if_neg h5n]
    exact ⟨rfl, rfl⟩

/-- C6, at the sample protocol: version 6 is checked with the new variant and version 4 with
the old one, on the data `A0 00` whose old checksum is `0xA0` and whose new one is `0x1E1`. -/
theorem verify_selects_variant_witness :
    (6 : Nat) ≥ sample_server.minimal_protocol_version_ ∧
    (4 : Nat) ≥ sample_server.minimal_protocol_version_ ∧
    verify_check_sum sample_protocol sample_server ⟨[0, 0, 0, 0, 0xA0, 0], 4, 6⟩ 0x1E1 6
      = (check_sum_new sample_protocol
          (UdpBuffer.data ⟨[0, 0, 0, 0, 0xA0, 0], 4, 6⟩ sample_protocol.data_is_unread)
        == 0x1E1) ∧
    verify_check_sum sample_protocol sample_server ⟨[0, 0, 0, 0, 0xA0, 0], 4, 6⟩ 0xA0 4
      = (check_sum_old sample_protocol
          (UdpBuffer.data ⟨[0, 0, 0, 0, 0xA0, 0], 4, 6⟩ sample_protocol.data_is_unread)
        == 0xA0) :=
  ⟨by decide, by decide,
    ((verify_selects_variant sample_protocol sample_server ⟨[0, 0, 0, 0, 0xA0, 0], 4, 6⟩ 0x1E1 6
      (fun _ => 0) (by decide)).1 (by decide)).1,
    ((verify_selects_variant sample_protocol sample_server ⟨[0, 0, 0, 0, 0xA0, 0], 4, 6⟩ 0xA0 4
      (fun _ => 0) (by decide)).2 (by decide)).1⟩

/-- C7: peer-control family.  For an action in `[0x50, 0x60)` and a buffer that holds
`bytes_left >= 6` unread bytes after the action byte, `get_protocol_version` returns true,
leaves the buffer as it was, and sets `protocol_version` to the 16-bit value decoded from the
bytes at offsets 4 and 5 of the unread data. -/
theorem peer_family_version_field (p : Protocol) (buffer : UdpBuffer) (bytes_left action : Nat)
    (hfamily : 0x50 ≤ action ∧ action < 0x60) (hmin : 6 ≤ bytes_left)
    (hleft : buffer.read_cursor + bytes_left ≤ buffer.filled_len) :
    get_protocol_version p buffer bytes_left action
      = some (buffer, some (p.decode_uint16 (buffer.bytes.getD (buffer.read_cursor + 4) 0)
          (buffer.bytes.getD (buffer.read_cursor + 5) 0) % 2 ^ 16)) := by
  rw [get_protocol_version_eq p buffer bytes_left action hleft, if_pos hfamily,
    if_neg (by omega)]

/-- C7, at action `0x55` with six bytes after the action, the last two being `01 07`. -/
theorem peer_family_version_field_witness :
    (0x50 ≤ 0x55 ∧ 0x55 < 0x60) ∧ 6 ≤ 6 ∧
    (UdpBuffer.mk [0, 0, 0, 0, 0x55, 0, 0, 0, 0, 1, 7] 5 11).read_cursor + 6
      ≤ (UdpBuffer.mk [0, 0, 0, 0, 0x55, 0, 0, 0, 0, 1, 7] 5 11).filled_len ∧
    get_protocol_version sample_protocol ⟨[0, 0, 0, 0, 0x55, 0, 0, 0, 0, 1, 7], 5, 11⟩ 6 0x55
      = some (⟨[0, 0, 0, 0, 0x55, 0, 0, 0, 0, 1, 7], 5, 11⟩, some 0x701) :=
  ⟨by decide, by decide, by decide,
    peer_family_version_field sample_protocol ⟨[0, 0, 0, 0, 0x55, 0, 0, 0, 0, 1, 7], 5, 11⟩ 6
      0x55 (by decide) (by decide) (by decide)⟩

/-- C8: handler cursor position.  Whatever the completion and the action family, every
handler invocation in the trace of `HandleUdpRecvFrom` on a posted buffer gets the buffer
with the read cursor at offset 5, all `bytes_transferred` bytes committed and the storage
untouched: the checksum and the action byte are consumed, everything after them is
unread. -/
theorem handler_cursor_at_five {H : Type} (p : Protocol) (s : UdpServer H) (error : Bool)
    (bytes : List Nat) (n : Nat) (trace : List (Event H)) (b : UdpBuffer) (h32 : n < 2 ^ 32)
    (htrace : HandleUdpRecvFrom p s error n ⟨bytes, 0, 0⟩ = some trace)
    (hb : b ∈ handler_buffers trace) :
    b = ⟨bytes, 5, n⟩ ∧ b.read_cursor = 5 ∧ b.remaining_view = (bytes.take n).drop 5 := by
  have hb5 : b = ⟨bytes, 5, n⟩ := by
    cases hset : s.handler_ with
    | false =>
      have : trace = [Event.delete_buffer] := by
        simpa [HandleUdpRecvFrom, hset] using htrace.symm
      subst this
      simp [handler_buffers] at hb
    | true =>
      by_cases hproc : error = false ∧ 5 < n
      · obtain ⟨herr, hlen⟩ := hproc
        subst herr
        rw [HandleUdpRecvFrom_processed p s bytes n hset hlen h32] at htrace
        cases hlook : s.packet_handlers_ (bytes.getD 4 0) with
        | none =>
          rw [hlook] at htrace
          simp only [Option.some.injEq] at htrace
          subst htrace
          simp [handler_buffers, recycle, UdpRecvFrom] at hb
        | some h =>
          rw [hlook] at htrace
          simp only [] at htrace
          rcases get_protocol_version_total p ⟨bytes, 5, n⟩ (n - 5) (bytes.getD 4 0)
            (by simp; omega) with ⟨b1, hrej⟩ | ⟨v, hacc⟩
          · rw [hrej] at htrace
            simp only [Option.some.injEq] at htrace
            subst htrace
            simp [handler_buffers, recycle, UdpRecvFrom] at hb
          · rw [hacc] at htrace
            simp only [] at htrace
            split_ifs at htrace
            · simp only [Option.some.injEq] at htrace
              subst htrace
              simpa [handler_buffers, recycle, UdpRecvFrom] using hb
            · simp only [Option.some.injEq] at htrace
              subst htrace
              simp [handler_buffers, recycle, UdpRecvFrom] at hb
      · have hskip : error = true ∨ n ≤ 5 := by
          cases error with
          | true => exact Or.inl rfl
          | false => exact Or.inr (by simpa using hproc)
        rw [HandleUdpRecvFrom_skipped p s error n _ hset hskip] at htrace
        simp only [Option.some.injEq] at htrace
        subst htrace
        simp [handler_buffers, recycle, UdpRecvFrom] at hb
  subst hb5
  exact ⟨rfl, rfl, rfl⟩

/-- C8, at the six-byte notify datagram `A0 00 00 00 A0 00` on the sample server, which is
dispatched. -/
theorem handler_cursor_at_five_witness :
    6 < 2 ^ 32 ∧
    HandleUdpRecvFrom sample_protocol sample_server false 6 ⟨[0xA0, 0, 0, 0, 0xA0, 0], 0, 0⟩
      = some [Event.commit 6,
          Event.get_protocol_version ⟨[0xA0, 0, 0, 0, 0xA0, 0], 5, 6⟩ 1 0xA0 true,
          Event.verify_check_sum [0xA0, 0] 0xA0 4 true,
          Event.handler 0xA0 ⟨[0xA0, 0, 0, 0, 0xA0, 0], 5, 6⟩,
          Event.reset ⟨[0xA0, 0, 0, 0, 0xA0, 0], 9, 6⟩,
          Event.async_receive_from ⟨[0xA0, 0, 0, 0, 0xA0, 0], 0, 0⟩] ∧
    (UdpBuffer.mk [0xA0, 0, 0, 0, 0xA0, 0] 5 6) ∈ handler_buffers
        [Event.commit 6,
          Event.get_protocol_version ⟨[0xA0, 0, 0, 0, 0xA0, 0], 5, 6⟩ 1 0xA0 true,
          Event.verify_check_sum [0xA0, 0] 0xA0 4 true,
          Event.handler 0xA0 ⟨[0xA0, 0, 0, 0, 0xA0, 0], 5, 6⟩,
          Event.reset ⟨[0xA0, 0, 0, 0, 0xA0, 0], 9, 6⟩,
          Event.async_receive_from ⟨[0xA0, 0, 0, 0, 0xA0, 0], 0, 0⟩] ∧
    (UdpBuffer.mk [0xA0, 0, 0, 0, 0xA0, 0] 5 6).read_cursor = 5 :=
  ⟨by norm_num, by decide, by decide,
    (handler_cursor_at_five sample_protocol sample_server false [0xA0, 0, 0, 0, 0xA0, 0] 6
      [Event.commit 6,
          Event.get_protocol_version ⟨[0xA0, 0, 0, 0, 0xA0, 0], 5, 6⟩ 1 0xA0 true,
        Event.verify_check_sum [0xA0, 0] 0xA0 4 true,
        Event.handler 0xA0 ⟨[0xA0, 0, 0, 0, 0xA0, 0], 5, 6⟩,
        Event.reset ⟨[0xA0, 0, 0, 0, 0xA0, 0], 9, 6⟩,
          Event.async_receive_from ⟨[0xA0, 0, 0, 0, 0xA0, 0], 0, 0⟩]
      ⟨[0xA0, 0, 0, 0, 0xA0, 0], 5, 6⟩ (by norm_num) (by decide) (by decide)).2.1⟩

/-- C9: short datagrams are dropped before any checksum is computed.  For an action in
`[0x50, 0x60)` with fewer than 6 remaining bytes, and for an action outside `[0x50, 0x60)`
and `[0xA0, 0xB0)` with fewer than 5 remaining bytes, `get_protocol_version` returns false
on every buffer (and leaves it as it was), and the completion handler for such a datagram
returns a trace with no call of `verify_check_sum` and no handler invocation. -/
theorem short_datagram_dropped_before_checksum {H : Type} (p : Protocol) (s : UdpServer H)
    (bytes_left action : Nat)
    (hshort : (0x50 ≤ action ∧ action < 0x60 ∧ bytes_left < 6) ∨
      (¬ (0x50 ≤ action ∧ action < 0x60) ∧ ¬ (0xA0 ≤ action ∧ action < 0xB0) ∧
        bytes_left < 5)) :
    (∀ buffer, get_protocol_version p buffer bytes_left action = some (buffer, none)) ∧
    (∀ bytes n, s.handler_ = true → 5 < n → n < 2 ^ 32 → n - 5 = bytes_left →
      bytes.getD 4 0 = action →
      ∃ trace, HandleUdpRecvFrom p s false n ⟨bytes, 0, 0⟩ = some trace ∧
        verify_calls trace = 0 ∧ invoked trace = []) := by
  have hsniff : ∀ buffer, get_protocol_version p buffer bytes_left action
      = some (buffer, none) := by
    intro buffer
    unfold get_protocol_version
    rcases hshort with ⟨h1, h2, h3⟩ | ⟨h1, h2, h3⟩
    · rw [if_pos ⟨h1, h2⟩, if_pos h3]
    · rw [if_neg h1, if_neg h2, if_pos h3]
  refine ⟨hsniff, fun bytes n hset hlen h32 hleft haction => ?_⟩
  rw [HandleUdpRecvFrom_processed p s bytes n hset hlen h32, hleft, haction]
  cases hlook : s.packet_handlers_ action with
  | none => exact ⟨_, rfl, by simp [verify_calls, recycle, UdpRecvFrom], by simp [invoked, recycle, UdpRecvFrom]⟩
  | some h =>
    simp only []
    rw [hsniff]
    exact ⟨_, rfl, by simp [verify_calls, recycle, UdpRecvFrom], by simp [invoked, recycle, UdpRecvFrom]⟩

/-- C9, at action `0x55` with 5 remaining bytes: the ten-byte datagram is sniffed, rejected
and recycled by the sample server, where `0x55` is registered. -/
theorem short_datagram_dropped_before_checksum_witness :
    ((0x50 ≤ 0x55 ∧ 0x55 < 0x60 ∧ 5 < 6) ∨
      (¬ (0x50 ≤ 0x55 ∧ 0x55 < 0x60) ∧ ¬ (0xA0 ≤ 0x55 ∧ 0x55 < 0xB0) ∧ 5 < 5)) ∧
    sample_server.packet_handlers_ 0x55 = some 0x55 ∧
    ∃ trace, HandleUdpRecvFrom sample_protocol sample_server false 10
        ⟨[0, 0, 0, 0, 0x55, 1, 2, 3, 4, 5], 0, 0⟩ = some trace ∧
      verify_calls trace = 0 ∧ invoked trace = [] :=
  ⟨by decide, by decide,
    (short_datagram_dropped_before_checksum sample_protocol sample_server 5 0x55
      (by decide)).2 [0, 0, 0, 0, 0x55, 1, 2, 3, 4, 5] 10 rfl (by decide) (by norm_num)
      (by decide) (by decide)⟩

/-- C10: data/request family.  For an action outside `[0x50, 0x60)` and `[0xA0, 0xB0)` and
a buffer that holds `bytes_left` unread bytes, `get_protocol_version` returns false exactly
when `bytes_left < 5`, or the is-request flag (the byte at offset 4 of the unread data) is
non-zero and `bytes_left < 7`.  Otherwise it returns true, leaves the buffer as it was, and
`protocol_version` is `PEER_VERSION` when the flag is zero and the 16-bit value decoded
from the two bytes after the flag when it is not. -/
theorem data_family_rule (p : Protocol) (buffer : UdpBuffer) (bytes_left action : Nat)
    (hfamily : ¬ (0x50 ≤ action ∧ action < 0x60) ∧ ¬ (0xA0 ≤ action ∧ action < 0xB0))
    (hleft : buffer.read_cursor + bytes_left ≤ buffer.filled_len) :
    ((bytes_left < 5 ∨ (buffer.bytes.getD (buffer.read_cursor + 4) 0 ≠ 0 ∧ bytes_left < 7)) →
      ∃ b1, get_protocol_version p buffer bytes_left action = some (b1, none)) ∧
    (¬ (bytes_left < 5 ∨ (buffer.bytes.getD (buffer.read_cursor + 4) 0 ≠ 0 ∧ bytes_left < 7)) →
      get_protocol_version p buffer bytes_left action = some (buffer, some
        (if buffer.bytes.getD (buffer.read_cursor + 4) 0 = 0 then p.PEER_VERSION
         else p.decode_uint16 (buffer.bytes.getD (buffer.read_cursor + 5) 0)
            (buffer.bytes.getD (buffer.read_cursor + 6) 0) % 2 ^ 16))) := by
  rw [get_protocol_version_eq p buffer bytes_left action hleft, if_neg hfamily.1,
    if_neg hfamily.2]
  refine ⟨fun hrej => ?_, fun hacc => ?_⟩
  · rcases hrej with h5 | ⟨hflag, h7⟩
    · rw [if_pos h5]
      exact ⟨_, rfl⟩
    · by_cases h5 : bytes_left < 5
      · rw [if_pos h5]
        exact ⟨_, rfl⟩
      · rw [if_neg h5, if_pos hflag, if_pos h7]
        exact ⟨_, rfl⟩
  · have h5 : ¬ bytes_left < 5 := fun h => hacc (Or.inl h)
    rw [if_neg h5]
    by_cases hflag : buffer.bytes.getD (buffer.read_cursor + 4) 0 = 0
    · rw [if_neg (by simpa using hflag), if_pos hflag]
    · have h7 : ¬ bytes_left < 7 := fun h => hacc (Or.inr ⟨hflag, h⟩)
      rw [if_pos hflag, if_neg h7, if_neg hflag]

/-- C10, at action `0x10` with flag 0 and 5 remaining bytes: accepted with `PEER_VERSION`,
which is 6 in the sample protocol and not `PEER_VERSION_V4`. -/
theorem data_family_rule_witness :
    (¬ (0x50 ≤ 0x10 ∧ 0x10 < 0x60) ∧ ¬ (0xA0 ≤ 0x10 ∧ 0x10 < 0xB0)) ∧
    (UdpBuffer.mk [0, 0, 0, 0, 0x10, 1, 2, 3, 4, 0] 5 10).read_cursor + 5
      ≤ (UdpBuffer.mk [0, 0, 0, 0, 0x10, 1, 2, 3, 4, 0] 5 10).filled_len ∧
    get_protocol_version sample_protocol ⟨[0, 0, 0, 0, 0x10, 1, 2, 3, 4, 0], 5, 10⟩ 5 0x10
      = some (⟨[0, 0, 0, 0, 0x10, 1, 2, 3, 4, 0], 5, 10⟩, some sample_protocol.PEER_VERSION) ∧
    sample_protocol.PEER_VERSION ≠ sample_protocol.PEER_VERSION_V4 :=
  ⟨by decide, by decide,
    (data_family_rule sample_protocol ⟨[0, 0, 0, 0, 0x10, 1, 2, 3, 4, 0], 5, 10⟩ 5 0x10
      (by decide) (by decide)).2 (by decide),
    by decide⟩


/-! ## Claims on the notify family, shutdown, the send path and the floor -/

/-- C11: notify family.  For an action in `[0xA0, 0xB0)`, `get_protocol_version` returns
true with `protocol_version = PEER_VERSION_V4` on every buffer and for every `bytes_left`,
zero included, and returns the buffer as it was given, storage and cursors alike; the result
does not depend on the bytes of the buffer, none of which is read. -/
theorem notify_family_fixed_version (p : Protocol) (buffer : UdpBuffer)
    (bytes_left action : Nat) (other_bytes : List Nat)
    (hfamily : 0xA0 ≤ action ∧ action < 0xB0) :
    get_protocol_version p buffer bytes_left action = some (buffer, some p.PEER_VERSION_V4) ∧
    get_protocol_version p { buffer with bytes := other_bytes } bytes_left action
      = some ({ buffer with bytes := other_bytes }, some p.PEER_VERSION_V4) := by
  have hnot : ¬ (0x50 ≤ action ∧ action < 0x60) := by omega
  constructor <;>
  · unfold get_protocol_version
    rw [if_neg hnot, if_pos hfamily]

/-- C11, at action `0xA0` with `bytes_left = 0` on a buffer with no unread byte. -/
theorem notify_family_fixed_version_witness :
    (0xA0 ≤ 0xA0 ∧ 0xA0 < 0xB0) ∧
    get_protocol_version sample_protocol ⟨[0xA0, 0, 0, 0, 0xA0], 5, 5⟩ 0 0xA0
      = some (⟨[0xA0, 0, 0, 0, 0xA0], 5, 5⟩, some 4) :=
  ⟨by decide,
    (notify_family_fixed_version sample_protocol ⟨[0xA0, 0, 0, 0, 0xA0], 5, 5⟩ 0 0xA0 []
      (by decide)).1⟩

/-- C13: shutdown drain.  After `Close()` the member `handler_` is null, and every later
completion, for any error flag, byte count and buffer, has the trace that consists of the
deletion of its buffer alone: no commit, no sniff, no gate, no handler, no new receive.
A stream of completions after `Close()` therefore invokes no handler, posts no receive and
deletes one buffer for each completion. -/
theorem closed_server_drains {H : Type} (p : Protocol) (s : UdpServer H) :
    (Close s).handler_ = false ∧
    (∀ error bytes_transferred recv_buffer,
      HandleUdpRecvFrom p (Close s) error bytes_transferred recv_buffer
        = some [Event.delete_buffer]) ∧
    (∀ cs pool pool1 trace, run_completions p (Close s) pool cs = some (pool1, trace) →
      invoked trace = [] ∧ posted_buffers trace = [] ∧ verify_calls trace = 0 ∧
      deleted trace = cs.length ∧ pool1.length + cs.length = pool.length) := by
  have hone : ∀ error bytes_transferred recv_buffer,
      HandleUdpRecvFrom p (Close s) error bytes_transferred recv_buffer
        = some [Event.delete_buffer] := by
    intro error n b
    simp [HandleUdpRecvFrom, Close]
  refine ⟨rfl, hone, ?_⟩
  intro cs
  induction cs with
  | nil =>
    intro pool pool1 trace hrun
    simp only [run_completions, Option.some.injEq, Prod.mk.injEq] at hrun
    obtain ⟨h1, h2⟩ := hrun
    subst h1 h2
    simp [invoked, posted_buffers, verify_calls, deleted]
  | cons c cs ih =>
    intro pool pool1 trace hrun
    unfold run_completions at hrun
    cases hget : pool[c.index]? with
    | none => simp [hget] at hrun
    | some b =>
      have hidx : c.index < pool.length := (List.getElem?_eq_some_iff.mp hget).1
      simp only [hget, hone, posted_buffers, List.append_nil] at hrun
      cases hrest : run_completions p (Close s) (pool.eraseIdx c.index) cs with
      | none => simp [hrest] at hrun
      | some r =>
        obtain ⟨pool2, rest⟩ := r
        simp only [hrest, Option.some.injEq, Prod.mk.injEq] at hrun
        obtain ⟨h1, h2⟩ := hrun
        subst h1 h2
        obtain ⟨i1, i2, i3, i4, i5⟩ := ih _ _ _ hrest
        have hlen : (pool.eraseIdx c.index).length = pool.length - 1 :=
          List.length_eraseIdx_of_lt hidx
        refine ⟨by simpa [invoked] using i1, by simpa [posted_buffers] using i2,
          by simpa [verify_calls] using i3, by simp [deleted, i4], ?_⟩
        simp only [List.length_cons]
        omega


/-- C13, at a pool of two posted buffers on the sample server after `Close()`: two completions
delete two buffers, invoke nothing and leave the pool empty. -/
theorem closed_server_drains_witness :
    run_completions sample_protocol (Close sample_server)
        [⟨[], 0, 0⟩, ⟨[], 0, 0⟩]
        [⟨1, false, 6, [0xA0, 0, 0, 0, 0xA0, 0]⟩, ⟨0, false, 6, [0xA0, 0, 0, 0, 0xA0, 0]⟩]
      = some ([], [Event.delete_buffer, Event.delete_buffer]) ∧
    invoked ([Event.delete_buffer, Event.delete_buffer] : List (Event Nat)) = [] :=
  ⟨by decide,
    ((closed_server_drains sample_protocol sample_server).2.2
      [⟨1, false, 6, [0xA0, 0, 0, 0, 0xA0, 0]⟩, ⟨0, false, 6, [0xA0, 0, 0, 0, 0xA0, 0]⟩]
      [⟨[], 0, 0⟩, ⟨[], 0, 0⟩] [] [Event.delete_buffer, Event.delete_buffer] (by decide)).1⟩

/-- C14 (as stated, refuted): for the ten-byte datagram `09 09 09 09 10 01 02 03 04 00` sent
to a peer of version 6, `UdpSendTo` stores `4F 00 00 00`, the new checksum of the six bytes
from offset 4 on; the new checksum of all ten bytes is `0xBB` before the store and `0x13C`
after it, and neither is what the leading four bytes hold. -/
theorem send_checksum_skips_leading_field :
    (UdpSendTo sample_protocol ⟨[9, 9, 9, 9, 0x10, 1, 2, 3, 4, 0], 0, 10⟩ 6).2
      = [0x4F, 0, 0, 0, 0x10, 1, 2, 3, 4, 0] ∧
    check_sum_new sample_protocol [0x10, 1, 2, 3, 4, 0] = 0x4F ∧
    check_sum_new sample_protocol [9, 9, 9, 9, 0x10, 1, 2, 3, 4, 0] = 0xBB ∧
    check_sum_new sample_protocol [0x4F, 0, 0, 0, 0x10, 1, 2, 3, 4, 0] = 0x13C ∧
    (UdpSendTo sample_protocol ⟨[9, 9, 9, 9, 0x10, 1, 2, 3, 4, 0], 0, 10⟩ 6).2.take 4
      ≠ store_uint32 sample_protocol.big_endian
          (check_sum_new sample_protocol [9, 9, 9, 9, 0x10, 1, 2, 3, 4, 0]) ∧
    (UdpSendTo sample_protocol ⟨[9, 9, 9, 9, 0x10, 1, 2, 3, 4, 0], 0, 10⟩ 6).2.take 4
      ≠ store_uint32 sample_protocol.big_endian
          (check_sum_new sample_protocol
            (UdpSendTo sample_protocol ⟨[9, 9, 9, 9, 0x10, 1, 2, 3, 4, 0], 0, 10⟩ 6).2) := by
  decide

/-- C14 (amended): for every outbound datagram of at least four bytes and every
`dest_protocol_version`, the datagram `UdpSendTo` transmits has the length of the original,
holds in its leading four bytes the checksum computed over the bytes of the datagram from
offset 4 on, with `check_sum_old` when `dest_protocol_version < PEER_VERSION_V5` and
`check_sum_new` otherwise, and has every byte from offset 4 on unchanged. -/
theorem send_signs_from_offset_four (p : Protocol) (d : List Nat) (dest_protocol_version : Nat)
    (hlen : 4 ≤ d.length) :
    (UdpSendTo p ⟨d, 0, d.length⟩ dest_protocol_version).2.length = d.length ∧
    (UdpSendTo p ⟨d, 0, d.length⟩ dest_protocol_version).2.take 4
      = store_uint32 p.big_endian
          (if dest_protocol_version < p.PEER_VERSION_V5 then check_sum_old p (d.drop 4)
           else check_sum_new p (d.drop 4)) ∧
    (UdpSendTo p ⟨d, 0, d.length⟩ dest_protocol_version).2.drop 4 = d.drop 4 := by
  have hstore : ∀ v, (store_uint32 p.big_endian v).length = 4 := by
    intro v
    unfold store_uint32
    split_ifs <;> rfl
  rw [UdpSendTo_datagram p d dest_protocol_version hlen]
  have hfour := hstore (send_chk_sum p d dest_protocol_version)
  refine ⟨?_, ?_, ?_⟩
  · rw [List.length_append, hfour, List.length_drop]
    omega
  · rw [List.take_append_of_le_length (by omega), List.take_of_length_le (by omega)]
    rfl
  · rw [List.drop_append_of_le_length (by omega), List.drop_of_length_le (by omega)]
    rfl

/-- C14 (amended), at the ten-byte datagram sent to a peer of version 6 and to one of
version 4: the stored checksum is the new, respectively the old, checksum of the last six
bytes. -/
theorem send_signs_from_offset_four_witness :
    4 ≤ [9, 9, 9, 9, 0x10, 1, 2, 3, 4, 0].length ∧
    (UdpSendTo sample_protocol ⟨[9, 9, 9, 9, 0x10, 1, 2, 3, 4, 0], 0,
        [9, 9, 9, 9, 0x10, 1, 2, 3, 4, 0].length⟩ 6).2.take 4 = [0x4F, 0, 0, 0] ∧
    (UdpSendTo sample_protocol ⟨[9, 9, 9, 9, 0x10, 1, 2, 3, 4, 0], 0,
        [9, 9, 9, 9, 0x10, 1, 2, 3, 4, 0].length⟩ 4).2.take 4 = [0x1A, 0, 0, 0] ∧
    (UdpSendTo sample_protocol ⟨[9, 9, 9, 9, 0x10, 1, 2, 3, 4, 0], 0,
        [9, 9, 9, 9, 0x10, 1, 2, 3, 4, 0].length⟩ 6).2.drop 4 = [0x10, 1, 2, 3, 4, 0] :=
  ⟨by decide,
    (send_signs_from_offset_four sample_protocol [9, 9, 9, 9, 0x10, 1, 2, 3, 4, 0] 6
      (by decide)).2.1,
    (send_signs_from_offset_four sample_protocol [9, 9, 9, 9, 0x10, 1, 2, 3, 4, 0] 4
      (by decide)).2.1,
    (send_signs_from_offset_four sample_protocol [9, 9, 9, 9, 0x10, 1, 2, 3, 4, 0] 6
      (by decide)).2.2⟩

/-- C17: raising the floor silences the notify family.  When `minimal_protocol_version_` is
above `PEER_VERSION_V4`, the completion handler invokes no handler for a datagram whose
action is in `[0xA0, 0xB0)`, whatever the error flag, the length, the content and the
checksum, and whether or not `handler_` is set. -/
theorem raised_floor_silences_notify {H : Type} (p : Protocol) (s : UdpServer H) (error : Bool)
    (bytes : List Nat) (n : Nat)
    (hfloor : s.minimal_protocol_version_ > p.PEER_VERSION_V4)
    (hfamily : 0xA0 ≤ bytes.getD 4 0 ∧ bytes.getD 4 0 < 0xB0) (h32 : n < 2 ^ 32) :
    ∃ trace, HandleUdpRecvFrom p s error n ⟨bytes, 0, 0⟩ = some trace ∧ invoked trace = [] := by
  cases hset : s.handler_ with
  | false =>
    exact ⟨[Event.delete_buffer], by simp [HandleUdpRecvFrom, hset], rfl⟩
  | true =>
    by_cases hproc : error = false ∧ 5 < n
    · obtain ⟨herr, hlen⟩ := hproc
      subst herr
      rw [HandleUdpRecvFrom_processed p s bytes n hset hlen h32]
      cases hlook : s.packet_handlers_ (bytes.getD 4 0) with
      | none => exact ⟨_, rfl, rfl⟩
      | some h =>
        have hnot : ¬ (0x50 ≤ bytes.getD 4 0 ∧ bytes.getD 4 0 < 0x60) := by omega
        have hacc : get_protocol_version p ⟨bytes, 5, n⟩ (n - 5) (bytes.getD 4 0)
            = some (⟨bytes, 5, n⟩, some p.PEER_VERSION_V4) := by
          unfold get_protocol_version
          rw [if_neg hnot, if_pos hfamily]
        have hver : verify_check_sum p s ⟨bytes, 4, n⟩ (leading_chk_sum p bytes)
            p.PEER_VERSION_V4 = false := by
          unfold verify_check_sum
          rw [if_neg (by omega)]
        simp only []
        rw [hacc]
        simp only [hver]
        exact ⟨_, rfl, by simp [invoked, recycle, UdpRecvFrom]⟩
    · have hskip : error = true ∨ n ≤ 5 := by
        cases error with
        | true => exact Or.inl rfl
        | false => exact Or.inr (by simpa using hproc)
      rw [HandleUdpRecvFrom_skipped p s error n _ hset hskip]
      exact ⟨_, rfl, by simp [invoked, recycle, UdpRecvFrom]⟩

/-- C17, at the six-byte notify datagram `A0 00 00 00 A0 00` with a correct legacy checksum,
on the server whose floor is 5: the sample server dispatches it, the strict one does not. -/
theorem raised_floor_silences_notify_witness :
    strict_server.minimal_protocol_version_ > sample_protocol.PEER_VERSION_V4 ∧
    (0xA0 ≤ [0xA0, 0, 0, 0, 0xA0, 0].getD 4 0 ∧ [0xA0, 0, 0, 0, 0xA0, 0].getD 4 0 < 0xB0) ∧
    6 < 2 ^ 32 ∧
    invoked ((HandleUdpRecvFrom sample_protocol sample_server false 6
      ⟨[0xA0, 0, 0, 0, 0xA0, 0], 0, 0⟩).getD []) = [0xA0] ∧
    ∃ trace, HandleUdpRecvFrom sample_protocol strict_server false 6
        ⟨[0xA0, 0, 0, 0, 0xA0, 0], 0, 0⟩ = some trace ∧ invoked trace = [] :=
  ⟨by decide, by decide, by norm_num, by decide,
    raised_floor_silences_notify sample_protocol strict_server false [0xA0, 0, 0, 0, 0xA0, 0] 6
      (by decide) (by decide) (by norm_num)⟩


/-! ## Claims on posting and recycling receives -/

theorem posted_buffers_append {H : Type} (xs ys : List (Event H)) :
    posted_buffers (xs ++ ys) = posted_buffers xs ++ posted_buffers ys := by
  induction xs with
  | nil => rfl
  | cons e xs ih => cases e <;> simp [posted_buffers, ih]

theorem invoked_append {H : Type} (xs ys : List (Event H)) :
    invoked (xs ++ ys) = invoked xs ++ invoked ys := by
  induction xs with
  | nil => rfl
  | cons e xs ih => cases e <;> simp [invoked, ih]

/-- A stretch of a trace without handler invocation that ends in a `reset` clears the
pending dispatch. -/
theorem no_double_dispatch_quiet {H : Type} (pre es : List (Event H)) (b : UdpBuffer)
    (pending : Bool)
    (hquiet : invoked pre = []) :
    no_double_dispatch pending (pre ++ Event.reset b :: es) = no_double_dispatch false es := by
  induction pre generalizing pending with
  | nil => rfl
  | cons e pre ih =>
    cases e <;> simp [invoked] at hquiet <;> simp [no_double_dispatch, ih _ hquiet]

/-- A stretch of a trace with at most one handler invocation that ends in a `reset` adds no
double dispatch. -/
theorem no_double_dispatch_once {H : Type} (pre es : List (Event H)) (b : UdpBuffer)
    (honce : (invoked pre).length ≤ 1) :
    no_double_dispatch false (pre ++ Event.reset b :: es) = no_double_dispatch false es := by
  induction pre with
  | nil => rfl
  | cons e pre ih =>
    cases e with
    | handler h hb =>
      have hquiet : invoked pre = [] := by
        simp only [invoked, List.length_cons] at honce
        exact List.length_eq_zero.mp (by omega)
      simp [no_double_dispatch, no_double_dispatch_quiet pre es b true hquiet]
    | reset rb =>
      simp only [invoked] at honce
      simpa [no_double_dispatch] using ih honce
    | delete_buffer =>
      simp only [invoked] at honce
      simpa [no_double_dispatch] using ih honce
    | commit n =>
      simp only [invoked] at honce
      simpa [no_double_dispatch] using ih honce
    | unknown_action a =>
      simp only [invoked] at honce
      simpa [no_double_dispatch] using ih honce
    | get_protocol_version sb bl a acc =>
      simp only [invoked] at honce
      simpa [no_double_dispatch] using ih honce
    | verify_check_sum d c v ok =>
      simp only [invoked] at honce
      simpa [no_double_dispatch] using ih honce
    | async_receive_from pb =>
      simp only [invoked] at honce
      simpa [no_double_dispatch] using ih honce

/-- The loop of `Recv` started at index `i` with `remaining` iterations to go. -/
theorem Recv_loop_spec {H : Type} (alloc : Nat → Allocation) (remaining i : Nat) :
    i ≤ (Recv_loop alloc remaining i : Nat × List (Event H)).1 ∧
    (Recv_loop alloc remaining i : Nat × List (Event H)).1 ≤ i + remaining ∧
    (posted_buffers (Recv_loop alloc remaining i : Nat × List (Event H)).2).map Allocation.valid
      = (List.range' i ((Recv_loop alloc remaining i : Nat × List (Event H)).1 - i)).map alloc ∧
    (Recv_loop alloc remaining i : Nat × List (Event H)).2
      = (posted_buffers (Recv_loop alloc remaining i : Nat × List (Event H)).2).map
          Event.async_receive_from
        ++ List.replicate (deleted (Recv_loop alloc remaining i : Nat × List (Event H)).2)
          Event.delete_buffer ∧
    ((Recv_loop alloc remaining i : Nat × List (Event H)).1 = i + remaining →
      deleted (Recv_loop alloc remaining i : Nat × List (Event H)).2 = 0) ∧
    ((Recv_loop alloc remaining i : Nat × List (Event H)).1 < i + remaining →
      (alloc (Recv_loop alloc remaining i : Nat × List (Event H)).1 = Allocation.null ∧
        deleted (Recv_loop alloc remaining i : Nat × List (Event H)).2 = 0) ∨
      (∃ b, alloc (Recv_loop alloc remaining i : Nat × List (Event H)).1 = Allocation.invalid b ∧
        deleted (Recv_loop alloc remaining i : Nat × List (Event H)).2 = 1)) := by
  induction remaining generalizing i with
  | zero => simp [Recv_loop, posted_buffers, deleted]
  | succ k ih =>
    cases halloc : alloc i with
    | null => simp [Recv_loop, halloc, posted_buffers, deleted]
    | invalid b => simp [Recv_loop, halloc, posted_buffers, deleted]
    | valid b =>
      obtain ⟨h1, h2, h3, h4, h5, h6⟩ := ih (i + 1)
      have hres : (Recv_loop alloc (k + 1) i : Nat × List (Event H))
          = ((Recv_loop alloc k (i + 1) : Nat × List (Event H)).1,
              Event.async_receive_from b :: (Recv_loop alloc k (i + 1)).2) := by
        simp [Recv_loop, halloc, UdpRecvFrom]
      rw [hres]
      simp only [posted_buffers, deleted, List.map_cons, List.cons_append]
      refine ⟨by omega, by omega, ?_, ?_, fun h => h5 (by omega), fun h => h6 (by omega)⟩
      · have hsplit : (Recv_loop alloc k (i + 1) : Nat × List (Event H)).1 - i
            = ((Recv_loop alloc k (i + 1) : Nat × List (Event H)).1 - (i + 1)) + 1 := by omega
        rw [hsplit, List.range'_succ, List.map_cons, halloc, h3]
      · rw [← h4]

/-- C15: `Recv(count)` returns the number of receives it posted.  The result `r` is at most
`count`; the buffers with a posted receive are, in order, those of the allocations
`0, ..., r - 1`, all of them usable, so there are exactly `r`; `r = count` when no
allocation fails; and when `r < count` the allocation with index `r` failed, the loop stopped
there, the buffer of that allocation (if there is one) was deleted and is not among the
posted ones.  The trace holds nothing but the `r` posts and that deletion. -/
theorem Recv_returns_posted_count {H : Type} (alloc : Nat → Allocation) (count : Nat) :
    (Recv alloc count : Nat × List (Event H)).1 ≤ count ∧
    (posted_buffers (Recv alloc count : Nat × List (Event H)).2).map Allocation.valid
      = (List.range (Recv alloc count : Nat × List (Event H)).1).map alloc ∧
    (posted_buffers (Recv alloc count : Nat × List (Event H)).2).length
      = (Recv alloc count : Nat × List (Event H)).1 ∧
    (Recv alloc count : Nat × List (Event H)).2
      = (posted_buffers (Recv alloc count : Nat × List (Event H)).2).map Event.async_receive_from
        ++ List.replicate (deleted (Recv alloc count : Nat × List (Event H)).2)
          Event.delete_buffer ∧
    ((∀ i, i < count → ∃ b, alloc i = Allocation.valid b) →
      (Recv alloc count : Nat × List (Event H)).1 = count ∧
      deleted (Recv alloc count : Nat × List (Event H)).2 = 0) ∧
    ((Recv alloc count : Nat × List (Event H)).1 < count →
      (alloc (Recv alloc count : Nat × List (Event H)).1 = Allocation.null ∧
        deleted (Recv alloc count : Nat × List (Event H)).2 = 0) ∨
      (∃ b, alloc (Recv alloc count : Nat × List (Event H)).1 = Allocation.invalid b ∧
        deleted (Recv alloc count : Nat × List (Event H)).2 = 1)) := by
  unfold Recv
  obtain ⟨_, h2, h3, h4, h5, h6⟩ := @Recv_loop_spec H alloc count 0
  simp only [Nat.zero_add, Nat.sub_zero] at h2 h3 h5 h6
  rw [← List.range_eq_range'] at h3
  have hfull : (∀ i, i < count → ∃ b, alloc i = Allocation.valid b) →
      (Recv_loop alloc count 0 : Nat × List (Event H)).1 = count := by
    intro hall
    by_contra hne
    have hlt : (Recv_loop alloc count 0 : Nat × List (Event H)).1 < count :=
      Nat.lt_of_le_of_ne h2 hne
    obtain ⟨b, hb⟩ := hall _ hlt
    rcases h6 hlt with ⟨hnull, _⟩ | ⟨b1, hinv, _⟩
    · rw [hb] at hnull
      cases hnull
    · rw [hb] at hinv
      cases hinv
  refine ⟨h2, h3, ?_, h4, fun hall => ⟨hfull hall, h5 (hfull hall)⟩, h6⟩
  have hlen := congrArg List.length h3
  simpa using hlen

/-- C15, at `Recv(4)` when the third allocation yields an unusable buffer: the result is 2,
two receives are posted and the third buffer is deleted. -/
theorem Recv_returns_posted_count_witness :
    (Recv (fun i => if i = 2 then Allocation.invalid ⟨[7], 0, 0⟩
        else Allocation.valid ⟨[i], 0, 0⟩) 4 : Nat × List (Event Nat))
      = (2, [Event.async_receive_from ⟨[0], 0, 0⟩, Event.async_receive_from ⟨[1], 0, 0⟩,
          Event.delete_buffer]) ∧
    (Recv (fun i => if i = 2 then Allocation.invalid ⟨[7], 0, 0⟩
        else Allocation.valid ⟨[i], 0, 0⟩) 4 : Nat × List (Event Nat)).1 ≤ 4 :=
  ⟨by decide,
    (Recv_returns_posted_count (fun i => if i = 2 then Allocation.invalid ⟨[7], 0, 0⟩
      else Allocation.valid ⟨[i], 0, 0⟩) 4).1⟩

/-! ## Claims on the recycling of buffers and the bounds of the sniff -/

/-- On a buffer that holds at least `bytes_left` unread bytes the sniff returns; it leaves
the storage and `filled_len` as they are and the cursor between its entry position and
`filled_len`, and at the entry position when it accepts. -/
theorem get_protocol_version_bounds (p : Protocol) (b : UdpBuffer) (bytes_left action : Nat)
    (h : b.read_cursor + bytes_left ≤ b.filled_len) :
    ∃ b1 r, get_protocol_version p b bytes_left action = some (b1, r) ∧
      b1.bytes = b.bytes ∧ b1.filled_len = b.filled_len ∧
      b.read_cursor ≤ b1.read_cursor ∧ b1.read_cursor ≤ b.filled_len ∧
      (r.isSome = true → b1 = b) := by
  rw [get_protocol_version_eq p b bytes_left action h]
  split_ifs
  all_goals first
    | exact ⟨_, _, rfl, rfl, rfl, Nat.le_refl _, by omega, fun _ => rfl⟩
    | exact ⟨_, _, rfl, rfl, rfl, by simp, by simp; omega, by simp⟩

/-- While `handler_` is set, the trace of a completion on a posted buffer is a stretch that
posts and resets nothing and invokes at most one handler, followed by the reset of the
completed buffer (with the storage the transport wrote, or as the handler left it) and one
receive posted on it. -/
theorem HandleUdpRecvFrom_recycles {H : Type} (p : Protocol) (s : UdpServer H) (error : Bool)
    (bytes : List Nat) (n : Nat) (hset : s.handler_ = true) (h32 : n < 2 ^ 32) :
    ∃ pre last, HandleUdpRecvFrom p s error n ⟨bytes, 0, 0⟩ = some (pre ++ recycle last) ∧
      ((invoked pre = [] ∧ last.bytes = bytes) ∨
        (∃ h, invoked pre = [h] ∧ last = s.call h ⟨bytes, 5, n⟩)) ∧
      posted_buffers pre = [] ∧ (∀ b, Event.reset b ∉ pre) := by
  by_cases hproc : error = false ∧ 5 < n
  · obtain ⟨herr, hlen⟩ := hproc
    subst herr
    rw [HandleUdpRecvFrom_processed p s bytes n hset hlen h32]
    cases hlook : s.packet_handlers_ (bytes.getD 4 0) with
    | none =>
      exact ⟨[Event.commit n, Event.unknown_action (bytes.getD 4 0)], _, rfl,
        Or.inl ⟨rfl, rfl⟩, rfl, by simp⟩
    | some h =>
      obtain ⟨b1, r, hsniff, hbytes, _, _, _, hsame⟩ :=
        get_protocol_version_bounds p ⟨bytes, 5, n⟩ (n - 5) (bytes.getD 4 0) (by simp; omega)
      rw [hsniff]
      cases r with
      | none =>
        exact ⟨[Event.commit n,
          Event.get_protocol_version ⟨bytes, 5, n⟩ (n - 5) (bytes.getD 4 0) false], _, rfl,
          Or.inl ⟨rfl, hbytes⟩, rfl, by simp⟩
      | some v =>
        simp only []
        split_ifs
        · exact ⟨[Event.commit n,
            Event.get_protocol_version ⟨bytes, 5, n⟩ (n - 5) (bytes.getD 4 0) true,
            Event.verify_check_sum (UdpBuffer.data ⟨bytes, 4, n⟩ p.data_is_unread)
              (leading_chk_sum p bytes) v true,
            Event.handler h ⟨bytes, 5, n⟩], _, rfl, Or.inr ⟨h, rfl, rfl⟩, rfl, by simp⟩
        · exact ⟨[Event.commit n,
            Event.get_protocol_version ⟨bytes, 5, n⟩ (n - 5) (bytes.getD 4 0) true,
            Event.verify_check_sum (UdpBuffer.data ⟨bytes, 4, n⟩ p.data_is_unread)
              (leading_chk_sum p bytes) v false], _, rfl, Or.inl ⟨rfl, rfl⟩, rfl, by simp⟩
  · have hskip : error = true ∨ n ≤ 5 := by
      cases error with
      | true => exact Or.inl rfl
      | false => exact Or.inr (by simpa using hproc)
    rw [HandleUdpRecvFrom_skipped p s error n _ hset hskip]
    exact ⟨[], _, rfl, Or.inl ⟨rfl, rfl⟩, rfl, by simp⟩

/-- C12: buffer recycling.  While `handler_` is set, every completion on a posted buffer,
whatever its outcome, has a trace that ends with `reset()` called on the completed buffer
(the buffer with the storage the transport wrote when no handler ran, the buffer as the
handler left it otherwise) and exactly one receive posted, by `UdpRecvFrom`, on that same
buffer with both cursors at zero; before the reset the trace posts nothing, resets nothing
and invokes at most one handler.  One completion on a pool of posted buffers therefore leaves
the other buffers as they are and puts the completed one back, reset.  Hence a stream of
completions on a pool of posted buffers returns, leaves as many buffers with an outstanding
receive as there were, all of them reset, posts one receive for each completion and never
invokes two handlers without a reset in between. -/
theorem buffers_recycled {H : Type} (p : Protocol) (s : UdpServer H)
    (hset : s.handler_ = true) :
    (∀ error n bytes, n < 2 ^ 32 →
      ∃ pre last, HandleUdpRecvFrom p s error n ⟨bytes, 0, 0⟩
          = some (pre ++ Event.reset last :: UdpRecvFrom ⟨last.bytes, 0, 0⟩) ∧
        ((invoked pre = [] ∧ last.bytes = bytes) ∨
          (∃ h, invoked pre = [h] ∧ last = s.call h ⟨bytes, 5, n⟩)) ∧
        posted_buffers pre = [] ∧ (∀ b, Event.reset b ∉ pre)) ∧
    (∀ pool c, (∀ b ∈ pool, b.read_cursor = 0 ∧ b.filled_len = 0) →
      c.index < pool.length → c.bytes_transferred < 2 ^ 32 →
      ∃ pre last, run_completions p s pool [c]
          = some (pool.eraseIdx c.index ++ [⟨last.bytes, 0, 0⟩],
              pre ++ Event.reset last :: UdpRecvFrom ⟨last.bytes, 0, 0⟩) ∧
        ((invoked pre = [] ∧ last.bytes = c.bytes) ∨
          (∃ h, invoked pre = [h] ∧ last = s.call h ⟨c.bytes, 5, c.bytes_transferred⟩)) ∧
        posted_buffers pre = [] ∧ (∀ b, Event.reset b ∉ pre)) ∧
    (∀ cs pool, (∀ b ∈ pool, b.read_cursor = 0 ∧ b.filled_len = 0) →
      (∀ c ∈ cs, c.index < pool.length ∧ c.bytes_transferred < 2 ^ 32) →
      ∃ pool1 trace, run_completions p s pool cs = some (pool1, trace) ∧
        pool1.length = pool.length ∧
        (∀ b ∈ pool1, b.read_cursor = 0 ∧ b.filled_len = 0) ∧
        (posted_buffers trace).length = cs.length ∧
        no_double_dispatch false trace = true) := by
  have hstep : ∀ (pool : List UdpBuffer) (c : Completion),
      (∀ b ∈ pool, b.read_cursor = 0 ∧ b.filled_len = 0) →
      c.index < pool.length → c.bytes_transferred < 2 ^ 32 →
      ∃ b0 pre last,
        pool[c.index]? = some b0 ∧
        HandleUdpRecvFrom p s c.error c.bytes_transferred { b0 with bytes := c.bytes }
          = some (pre ++ recycle last) ∧
        ((invoked pre = [] ∧ last.bytes = c.bytes) ∨
          (∃ h, invoked pre = [h] ∧ last = s.call h ⟨c.bytes, 5, c.bytes_transferred⟩)) ∧
        posted_buffers pre = [] ∧ (∀ b, Event.reset b ∉ pre) := by
    intro pool c hpool hidx h32
    have hget : pool[c.index]? = some pool[c.index] := List.getElem?_eq_getElem hidx
    obtain ⟨hcur, hfill⟩ := hpool pool[c.index] (List.getElem_mem hidx)
    have hbuf : ({ pool[c.index] with bytes := c.bytes } : UdpBuffer) = ⟨c.bytes, 0, 0⟩ := by
      show UdpBuffer.mk c.bytes pool[c.index].read_cursor pool[c.index].filled_len = _
      rw [hcur, hfill]
    obtain ⟨pre, last, hrun, htie, hpost, hnoreset⟩ :=
      HandleUdpRecvFrom_recycles p s c.error c.bytes c.bytes_transferred hset h32
    exact ⟨pool[c.index], pre, last, hget, by rw [hbuf]; exact hrun, htie, hpost, hnoreset⟩
  have hposted : ∀ (pre : List (Event H)) last, posted_buffers pre = [] →
      posted_buffers (pre ++ recycle last) = [⟨last.bytes, 0, 0⟩] := by
    intro pre last hpost
    rw [posted_buffers_append, hpost]
    rfl
  have honce : ∀ (pre : List (Event H)) (bytes : List Nat) (n : Nat) (last : UdpBuffer),
      ((invoked pre = [] ∧ last.bytes = bytes) ∨
        (∃ h, invoked pre = [h] ∧ last = s.call h ⟨bytes, 5, n⟩)) →
      (invoked pre).length ≤ 1 := by
    intro pre bytes n last htie
    rcases htie with ⟨h0, _⟩ | ⟨h, h1, _⟩
    · simp [h0]
    · simp [h1]
  refine ⟨?_, ?_, ?_⟩
  · intro error n bytes h32
    obtain ⟨pre, last, hrun, htie, hpost, hnoreset⟩ :=
      HandleUdpRecvFrom_recycles p s error bytes n hset h32
    exact ⟨pre, last, hrun, htie, hpost, hnoreset⟩
  · intro pool c hpool hidx h32
    obtain ⟨b0, pre, last, hget, hrun, htie, hpost, hnoreset⟩ := hstep pool c hpool hidx h32
    refine ⟨pre, last, ?_, htie, hpost, hnoreset⟩
    unfold run_completions
    rw [hget]
    simp only []
    rw [hrun]
    simp only []
    rw [hposted pre last hpost]
    simp only [run_completions, recycle, List.append_nil]
    rfl
  · intro cs
    induction cs with
    | nil =>
      intro pool hpool _
      exact ⟨pool, [], rfl, rfl, hpool, rfl, rfl⟩
    | cons c cs ih =>
      intro pool hpool hcs
      obtain ⟨hidx, h32⟩ := hcs c (List.mem_cons_self _ _)
      obtain ⟨b0, pre, last, hget, hrun, htie, hpost, _⟩ := hstep pool c hpool hidx h32
      have hlen : (pool.eraseIdx c.index ++ [(⟨last.bytes, 0, 0⟩ : UdpBuffer)]).length
          = pool.length := by
        rw [List.length_append, List.length_eraseIdx_of_lt hidx]
        simp only [List.length_singleton]
        omega
      have hpool1 : ∀ x ∈ pool.eraseIdx c.index ++ [(⟨last.bytes, 0, 0⟩ : UdpBuffer)],
          x.read_cursor = 0 ∧ x.filled_len = 0 := by
        intro x hx
        rcases List.mem_append.mp hx with hx | hx
        · exact hpool x (List.mem_of_mem_eraseIdx hx)
        · rw [List.mem_singleton.mp hx]
          exact ⟨rfl, rfl⟩
      obtain ⟨pool1, rest, hrest, hl, hreset, hcount, hndd⟩ := ih _ hpool1 (fun c1 hc1 => by
        rw [hlen]
        exact hcs c1 (List.mem_cons_of_mem _ hc1))
      refine ⟨pool1, (pre ++ recycle last) ++ rest, ?_, by rw [hl, hlen], hreset, ?_, ?_⟩
      · unfold run_completions
        rw [hget]
        simp only []
        rw [hrun]
        simp only []
        rw [hposted pre last hpost, hrest]
      · rw [posted_buffers_append, hposted pre last hpost, List.length_append, hcount,
          List.length_singleton, List.length_cons]
        omega
      · have hshape : (pre ++ recycle last) ++ rest
            = pre ++ Event.reset last :: (Event.async_receive_from last.reset :: rest) := by
          simp [recycle, UdpRecvFrom]
        rw [hshape, no_double_dispatch_once pre _ last (honce pre _ _ last htie)]
        simpa [no_double_dispatch] using hndd


/-- C12, at a pool of two posted buffers on the sample server and three completions: a
dispatched notify datagram, a transport error and a dispatched data datagram.  Each completed
buffer is reset and posted again with the storage it was completed with, two handlers are
invoked, each followed by a reset, and two buffers stay outstanding. -/
theorem buffers_recycled_witness :
    sample_server.handler_ = true ∧
    run_completions sample_protocol sample_server [⟨[], 0, 0⟩, ⟨[], 0, 0⟩]
        [⟨1, false, 6, [0xA0, 0, 0, 0, 0xA0, 0]⟩, ⟨0, true, 0, []⟩,
          ⟨0, false, 10, [0x4F, 0, 0, 0, 0x10, 1, 2, 3, 4, 0]⟩]
      = some ([⟨[], 0, 0⟩, ⟨[0x4F, 0, 0, 0, 0x10, 1, 2, 3, 4, 0], 0, 0⟩],
          [Event.commit 6,
            Event.get_protocol_version ⟨[0xA0, 0, 0, 0, 0xA0, 0], 5, 6⟩ 1 0xA0 true,
            Event.verify_check_sum [0xA0, 0] 0xA0 4 true,
            Event.handler 0xA0 ⟨[0xA0, 0, 0, 0, 0xA0, 0], 5, 6⟩,
            Event.reset ⟨[0xA0, 0, 0, 0, 0xA0, 0], 9, 6⟩,
            Event.async_receive_from ⟨[0xA0, 0, 0, 0, 0xA0, 0], 0, 0⟩,
            Event.reset ⟨[], 0, 0⟩,
            Event.async_receive_from ⟨[], 0, 0⟩,
            Event.commit 10,
            Event.get_protocol_version ⟨[0x4F, 0, 0, 0, 0x10, 1, 2, 3, 4, 0], 5, 10⟩ 5 0x10 true,
            Event.verify_check_sum [0x10, 1, 2, 3, 4, 0] 0x4F 6 true,
            Event.handler 0x10 ⟨[0x4F, 0, 0, 0, 0x10, 1, 2, 3, 4, 0], 5, 10⟩,
            Event.reset ⟨[0x4F, 0, 0, 0, 0x10, 1, 2, 3, 4, 0], 9, 10⟩,
            Event.async_receive_from ⟨[0x4F, 0, 0, 0, 0x10, 1, 2, 3, 4, 0], 0, 0⟩]) ∧
    ∃ pool1 trace, run_completions sample_protocol sample_server [⟨[], 0, 0⟩, ⟨[], 0, 0⟩]
        [⟨1, false, 6, [0xA0, 0, 0, 0, 0xA0, 0]⟩, ⟨0, true, 0, []⟩,
          ⟨0, false, 10, [0x4F, 0, 0, 0, 0x10, 1, 2, 3, 4, 0]⟩] = some (pool1, trace) ∧
      pool1.length = [(⟨[], 0, 0⟩ : UdpBuffer), ⟨[], 0, 0⟩].length ∧
      (∀ b ∈ pool1, b.read_cursor = 0 ∧ b.filled_len = 0) ∧
      (posted_buffers trace).length
        = [(⟨1, false, 6, [0xA0, 0, 0, 0, 0xA0, 0]⟩ : Completion), ⟨0, true, 0, []⟩,
            ⟨0, false, 10, [0x4F, 0, 0, 0, 0x10, 1, 2, 3, 4, 0]⟩].length ∧
      no_double_dispatch false trace = true :=
  ⟨rfl, by decide,
    (buffers_recycled sample_protocol sample_server rfl).2.2
      [⟨1, false, 6, [0xA0, 0, 0, 0, 0xA0, 0]⟩, ⟨0, true, 0, []⟩,
        ⟨0, false, 10, [0x4F, 0, 0, 0, 0x10, 1, 2, 3, 4, 0]⟩]
      [⟨[], 0, 0⟩, ⟨[], 0, 0⟩] (by decide) (by simp)⟩

/-- C16: bounds safety of the sniff inside the pipeline.  A processed completion (handler
set, no error, `5 < bytes_transferred < 2 ^ 32`) returns a trace; when the action is
registered the sniff is called, and every call of the sniff in the trace has these
properties: `bytes_left` is the 32-bit `bytes_transferred - 5`, which does not wrap
(`bytes_left + 5 = bytes_transferred`); the buffer it is given is the received one with
exactly `bytes_left` bytes between its read cursor and `filled_len`; the sniff returns on
that buffer, so none of its reads is at or beyond `filled_len`, and it leaves the cursor
between its entry position and `filled_len`; and the sniff equally returns on the buffer that
holds the unread bytes alone, whose cursor 0 is the entry position, so no `unget` goes below
the entry position. -/
theorem sniff_stays_in_bounds {H : Type} (p : Protocol) (s : UdpServer H) (bytes : List Nat)
    (n : Nat) (hset : s.handler_ = true) (hlen : 5 < n) (h32 : n < 2 ^ 32) :
    ∃ trace, HandleUdpRecvFrom p s false n ⟨bytes, 0, 0⟩ = some trace ∧
      (∀ h, s.packet_handlers_ (bytes.getD 4 0) = some h →
        ∃ accepted, Event.get_protocol_version ⟨bytes, 5, n⟩ ((n + 2 ^ 32 - 5) % 2 ^ 32)
          (bytes.getD 4 0) accepted ∈ trace) ∧
      (∀ buffer bytes_left action accepted,
        Event.get_protocol_version buffer bytes_left action accepted ∈ trace →
        bytes_left = (n + 2 ^ 32 - 5) % 2 ^ 32 ∧ bytes_left + 5 = n ∧
        buffer.bytes = bytes ∧ buffer.filled_len = n ∧
        buffer.read_cursor + bytes_left = buffer.filled_len ∧
        (∃ b1 r, get_protocol_version p buffer bytes_left action = some (b1, r) ∧
          accepted = r.isSome ∧
          buffer.read_cursor ≤ b1.read_cursor ∧ b1.read_cursor ≤ buffer.filled_len) ∧
        (∃ b1 r, get_protocol_version p
          ⟨buffer.bytes.drop buffer.read_cursor, 0, bytes_left⟩ bytes_left action
            = some (b1, r))) := by
  have hwrap : (n + 2 ^ 32 - 5) % 2 ^ 32 = n - 5 := by omega
  have hshift : ∀ action, ∃ b1 r, get_protocol_version p
      ⟨bytes.drop 5, 0, n - 5⟩ (n - 5) action = some (b1, r) := by
    intro action
    obtain ⟨b1, r, hr, _⟩ :=
      get_protocol_version_bounds p ⟨bytes.drop 5, 0, n - 5⟩ (n - 5) action (by simp)
    exact ⟨b1, r, hr⟩
  rw [HandleUdpRecvFrom_processed p s bytes n hset hlen h32, hwrap]
  cases hlook : s.packet_handlers_ (bytes.getD 4 0) with
  | none =>
    refine ⟨_, rfl, fun h hh => by simp at hh, ?_⟩
    intro buffer bytes_left action accepted hmem
    simp [recycle, UdpRecvFrom] at hmem
  | some h =>
    obtain ⟨b1, r, hsniff, _, _, hlow, hhigh, _⟩ :=
      get_protocol_version_bounds p ⟨bytes, 5, n⟩ (n - 5) (bytes.getD 4 0) (by simp; omega)
    have hcall : ∀ buffer bytes_left action accepted,
        buffer = ⟨bytes, 5, n⟩ → bytes_left = n - 5 → action = bytes.getD 4 0 →
        accepted = r.isSome →
        bytes_left = n - 5 ∧ bytes_left + 5 = n ∧
        buffer.bytes = bytes ∧ buffer.filled_len = n ∧
        buffer.read_cursor + bytes_left = buffer.filled_len ∧
        (∃ b1 r, get_protocol_version p buffer bytes_left action = some (b1, r) ∧
          accepted = r.isSome ∧
          buffer.read_cursor ≤ b1.read_cursor ∧ b1.read_cursor ≤ buffer.filled_len) ∧
        (∃ b1 r, get_protocol_version p
          ⟨buffer.bytes.drop buffer.read_cursor, 0, bytes_left⟩ bytes_left action
            = some (b1, r)) := by
      intro buffer bytes_left action accepted hb hbl ha hacc
      subst hb hbl ha hacc
      exact ⟨rfl, by omega, rfl, rfl, by simp; omega, ⟨b1, r, hsniff, rfl, hlow, hhigh⟩,
        hshift _⟩
    rw [hsniff]
    cases r with
    | none =>
      refine ⟨_, rfl, fun _ _ => ⟨false, by simp⟩, ?_⟩
      intro buffer bytes_left action accepted hmem
      simp [recycle, UdpRecvFrom] at hmem
      obtain ⟨hb, hbl, ha, hacc⟩ := hmem
      exact hcall buffer bytes_left action accepted hb hbl (by simpa using ha) (by simp [hacc])
    | some v =>
      simp only []
      split_ifs
      · refine ⟨_, rfl, fun _ _ => ⟨true, by simp⟩, ?_⟩
        intro buffer bytes_left action accepted hmem
        simp [recycle, UdpRecvFrom] at hmem
        obtain ⟨hb, hbl, ha, hacc⟩ := hmem
        exact hcall buffer bytes_left action accepted hb hbl (by simpa using ha) (by simp [hacc])
      · refine ⟨_, rfl, fun _ _ => ⟨true, by simp⟩, ?_⟩
        intro buffer bytes_left action accepted hmem
        simp [recycle, UdpRecvFrom] at hmem
        obtain ⟨hb, hbl, ha, hacc⟩ := hmem
        exact hcall buffer bytes_left action accepted hb hbl (by simpa using ha) (by simp [hacc])


/-- C16, at the twelve-byte datagram with the registered action `0x10`, is-request flag 1 and
the version field `07 01`: the sniff is called on the buffer with cursor 5 and seven unread
bytes with `bytes_left = 7`, reads seven bytes, rewinds seven and accepts. -/
theorem sniff_stays_in_bounds_witness :
    sample_server.handler_ = true ∧ 5 < 12 ∧ 12 < 2 ^ 32 ∧
    HandleUdpRecvFrom sample_protocol sample_server false 12
        ⟨[0x20, 0, 0, 0, 0x10, 0, 0, 0, 0, 1, 7, 1], 0, 0⟩
      = some [Event.commit 12,
          Event.get_protocol_version ⟨[0x20, 0, 0, 0, 0x10, 0, 0, 0, 0, 1, 7, 1], 5, 12⟩ 7 0x10
            true,
          Event.verify_check_sum [0x10, 0, 0, 0, 0, 1, 7, 1] 0x20 0x107 false,
          Event.reset ⟨[0x20, 0, 0, 0, 0x10, 0, 0, 0, 0, 1, 7, 1], 4, 12⟩,
          Event.async_receive_from ⟨[0x20, 0, 0, 0, 0x10, 0, 0, 0, 0, 1, 7, 1], 0, 0⟩] ∧
    get_protocol_version sample_protocol ⟨[0x20, 0, 0, 0, 0x10, 0, 0, 0, 0, 1, 7, 1], 5, 12⟩ 7
        0x10
      = some (⟨[0x20, 0, 0, 0, 0x10, 0, 0, 0, 0, 1, 7, 1], 5, 12⟩, some 0x107) ∧
    ∃ trace, HandleUdpRecvFrom sample_protocol sample_server false 12
        ⟨[0x20, 0, 0, 0, 0x10, 0, 0, 0, 0, 1, 7, 1], 0, 0⟩ = some trace ∧
      (∀ h, sample_server.packet_handlers_ ([0x20, 0, 0, 0, 0x10, 0, 0, 0, 0, 1, 7, 1].getD 4 0)
          = some h →
        ∃ accepted, Event.get_protocol_version
          ⟨[0x20, 0, 0, 0, 0x10, 0, 0, 0, 0, 1, 7, 1], 5, 12⟩ ((12 + 2 ^ 32 - 5) % 2 ^ 32)
          ([0x20, 0, 0, 0, 0x10, 0, 0, 0, 0, 1, 7, 1].getD 4 0) accepted ∈ trace) ∧
      (∀ buffer bytes_left action accepted,
        Event.get_protocol_version buffer bytes_left action accepted ∈ trace →
        bytes_left = (12 + 2 ^ 32 - 5) % 2 ^ 32 ∧ bytes_left + 5 = 12 ∧
        buffer.bytes = [0x20, 0, 0, 0, 0x10, 0, 0, 0, 0, 1, 7, 1] ∧ buffer.filled_len = 12 ∧
        buffer.read_cursor + bytes_left = buffer.filled_len ∧
        (∃ b1 r, get_protocol_version sample_protocol buffer bytes_left action = some (b1, r) ∧
          accepted = r.isSome ∧
          buffer.read_cursor ≤ b1.read_cursor ∧ b1.read_cursor ≤ buffer.filled_len) ∧
        (∃ b1 r, get_protocol_version sample_protocol
          ⟨buffer.bytes.drop buffer.read_cursor, 0, bytes_left⟩ bytes_left action
            = some (b1, r))) :=
  ⟨rfl, by decide, by norm_num, by decide, by decide,
    sniff_stays_in_bounds sample_protocol sample_server
      [0x20, 0, 0, 0, 0x10, 0, 0, 0, 0, 1, 7, 1] 12 rfl (by decide) (by norm_num)⟩

/-! ## Claims on the sign/verify symmetry and the minimum frame -/

/-- C4 (as stated, refuted), on the sample server.  (1) Its handler for `0xA0` is registered,
its floor is not above `PEER_VERSION_V4`, and the first four bytes of the five-byte datagram
`A0 00 00 00 A0` are the legacy checksum the gate would accept; yet the completion of these
five bytes is neither committed nor dispatched: the buffer is reset and posted again.
(2) The six-byte datagram with the unregistered action `0x20` is committed and then neither
sniffed nor gated.  (3) The ten-byte datagram with the registered action `0x55` is sniffed,
rejected and not gated.  (4) After `Close()` the six-byte notify datagram with a correct
checksum is not committed: its buffer is deleted. -/
theorem five_byte_notify_datagram_discarded :
    (sample_server.packet_handlers_ 0xA0 = some 0xA0 ∧
      sample_protocol.PEER_VERSION_V4 ≥ sample_server.minimal_protocol_version_ ∧
      verify_check_sum sample_protocol sample_server ⟨[0xA0, 0, 0, 0, 0xA0], 4, 5⟩
        (leading_chk_sum sample_protocol [0xA0, 0, 0, 0, 0xA0])
        sample_protocol.PEER_VERSION_V4 = true ∧
      HandleUdpRecvFrom sample_protocol sample_server false 5 ⟨[0xA0, 0, 0, 0, 0xA0], 0, 0⟩
        = some [Event.reset ⟨[0xA0, 0, 0, 0, 0xA0], 0, 0⟩,
            Event.async_receive_from ⟨[0xA0, 0, 0, 0, 0xA0], 0, 0⟩]) ∧
    (sample_server.packet_handlers_ 0x20 = none ∧
      HandleUdpRecvFrom sample_protocol sample_server false 6 ⟨[0, 0, 0, 0, 0x20, 0], 0, 0⟩
        = some [Event.commit 6, Event.unknown_action 0x20,
            Event.reset ⟨[0, 0, 0, 0, 0x20, 0], 5, 6⟩,
            Event.async_receive_from ⟨[0, 0, 0, 0, 0x20, 0], 0, 0⟩]) ∧
    (sample_server.packet_handlers_ 0x55 = some 0x55 ∧
      HandleUdpRecvFrom sample_protocol sample_server false 10
          ⟨[0, 0, 0, 0, 0x55, 1, 2, 3, 4, 5], 0, 0⟩
        = some [Event.commit 10,
            Event.get_protocol_version ⟨[0, 0, 0, 0, 0x55, 1, 2, 3, 4, 5], 5, 10⟩ 5 0x55 false,
            Event.reset ⟨[0, 0, 0, 0, 0x55, 1, 2, 3, 4, 5], 5, 10⟩,
            Event.async_receive_from ⟨[0, 0, 0, 0, 0x55, 1, 2, 3, 4, 5], 0, 0⟩]) ∧
    (verify_check_sum sample_protocol (Close sample_server) ⟨[0xA0, 0, 0, 0, 0xA0, 0], 4, 6⟩
        (leading_chk_sum sample_protocol [0xA0, 0, 0, 0, 0xA0, 0])
        sample_protocol.PEER_VERSION_V4 = true ∧
      HandleUdpRecvFrom sample_protocol (Close sample_server) false 6
          ⟨[0xA0, 0, 0, 0, 0xA0, 0], 0, 0⟩
        = some [Event.delete_buffer]) := by
  decide

/-- C4 (amended): while `handler_` is set, an error-free completion is discarded for its
length exactly when it transfers at most five bytes (the trace is then the reset and the
re-post of the buffer alone).  A completion of six or more bytes is committed and has its
checksum and its action byte read; when the action is registered it is sniffed, on the
buffer with the read cursor at 5, and when the sniff accepts it is gated.  In particular a
six-byte datagram with action `0xA0`, registered, with `PEER_VERSION_V4` at or above the floor
and below `PEER_VERSION_V5`, and with the leading four bytes equal to the legacy checksum
that `verify_check_sum` computes (`check_sum_old` of `buffer.data()`), is dispatched to its
handler. -/
theorem minimum_frame_is_six_bytes {H : Type} (p : Protocol) (s : UdpServer H)
    (bytes : List Nat) (n : Nat) (hset : s.handler_ = true) (h32 : n < 2 ^ 32) :
    (n ≤ 5 → HandleUdpRecvFrom p s false n ⟨bytes, 0, 0⟩
      = some [Event.reset ⟨bytes, 0, 0⟩, Event.async_receive_from ⟨bytes, 0, 0⟩]) ∧
    (5 < n → ∃ rest, HandleUdpRecvFrom p s false n ⟨bytes, 0, 0⟩
        = some (Event.commit n :: rest) ∧
      (s.packet_handlers_ (bytes.getD 4 0) = none →
        rest = Event.unknown_action (bytes.getD 4 0) :: recycle ⟨bytes, 5, n⟩) ∧
      (∀ h, s.packet_handlers_ (bytes.getD 4 0) = some h →
        (∃ b1, rest = Event.get_protocol_version ⟨bytes, 5, n⟩ (n - 5) (bytes.getD 4 0) false
          :: recycle b1) ∨
        (∃ v ok rest1, rest = Event.get_protocol_version ⟨bytes, 5, n⟩ (n - 5) (bytes.getD 4 0)
            true
          :: Event.verify_check_sum (UdpBuffer.data ⟨bytes, 4, n⟩ p.data_is_unread)
            (leading_chk_sum p bytes) v ok
          :: rest1 ∧
          ok = verify_check_sum p s ⟨bytes, 4, n⟩ (leading_chk_sum p bytes) v))) ∧
    (∀ h, n = 6 → bytes.getD 4 0 = 0xA0 → s.packet_handlers_ 0xA0 = some h →
      p.PEER_VERSION_V4 ≥ s.minimal_protocol_version_ →
      ¬ p.PEER_VERSION_V4 ≥ p.PEER_VERSION_V5 →
      leading_chk_sum p bytes
        = check_sum_old p (UdpBuffer.data ⟨bytes, 4, 6⟩ p.data_is_unread) →
      ∃ trace, HandleUdpRecvFrom p s false n ⟨bytes, 0, 0⟩ = some trace ∧ invoked trace = [h]) := by
  refine ⟨fun hn => ?_, fun hn => ?_, fun h h6 ha hlook hfloor hleg hchk => ?_⟩
  · rw [HandleUdpRecvFrom_skipped p s false n _ hset (Or.inr hn)]
    rfl
  · rw [HandleUdpRecvFrom_processed p s bytes n hset hn h32]
    cases hlook : s.packet_handlers_ (bytes.getD 4 0) with
    | none => exact ⟨_, rfl, fun _ => rfl, fun h hh => by simp at hh⟩
    | some h0 =>
      rcases get_protocol_version_total p ⟨bytes, 5, n⟩ (n - 5) (bytes.getD 4 0)
        (by simp; omega) with ⟨b1, hrej⟩ | ⟨v, hacc⟩
      · rw [hrej]
        exact ⟨_, rfl, fun hh => by simp at hh, fun h _ => Or.inl ⟨b1, rfl⟩⟩
      · rw [hacc]
        simp only []
        by_cases hver : verify_check_sum p s ⟨bytes, 4, n⟩ (leading_chk_sum p bytes) v = true
        · rw [if_pos hver]
          exact ⟨_, rfl, fun hh => by simp at hh,
            fun h _ => Or.inr ⟨v, true, _, rfl, hver.symm⟩⟩
        · rw [if_neg hver]
          exact ⟨_, rfl, fun hh => by simp at hh,
            fun h _ => Or.inr ⟨v, false, _, rfl, by simpa using hver⟩⟩
  · subst h6
    have hacc : get_protocol_version p ⟨bytes, 5, 6⟩ (6 - 5) (bytes.getD 4 0)
        = some (⟨bytes, 5, 6⟩, some p.PEER_VERSION_V4) := by
      rw [get_protocol_version_eq p _ _ _ (by simp), ha]
      simp
    have hver : verify_check_sum p s ⟨bytes, 4, 6⟩ (leading_chk_sum p bytes)
        p.PEER_VERSION_V4 = true := by
      unfold verify_check_sum
      rw [if_pos hfloor, if_neg hleg, hchk]
      simp
    rw [HandleUdpRecvFrom_processed p s bytes 6 hset (by decide) h32, ha, hlook]
    simp only []
    rw [ha] at hacc
    rw [hacc]
    simp only []
    rw [if_pos hver]
    exact ⟨_, rfl, by simp [invoked, recycle, UdpRecvFrom]⟩

/-- C4 (amended), at the six-byte notify datagram `A0 00 00 00 A0 00` on the sample server:
it is dispatched to the handler of `0xA0`. -/
theorem minimum_frame_is_six_bytes_witness :
    sample_server.handler_ = true ∧ 6 < 2 ^ 32 ∧
    ∃ trace, HandleUdpRecvFrom sample_protocol sample_server false 6
        ⟨[0xA0, 0, 0, 0, 0xA0, 0], 0, 0⟩ = some trace ∧ invoked trace = [0xA0] :=
  ⟨rfl, by norm_num,
    (minimum_frame_is_six_bytes sample_protocol sample_server [0xA0, 0, 0, 0, 0xA0, 0] 6 rfl
      (by norm_num)).2.2 0xA0 rfl rfl rfl (by decide) (by decide) (by decide)⟩

end protocol
